import Mathlib

/-!
Shallow embedding of the SCP03 secure-channel core of the yubihsm-rs
repository: the message codec (src/session/message.rs), the secure channel
state machine (src/session/securechannel/mod.rs) and the error taxonomy
(src/error.rs, src/client/error.rs, src/connector/error.rs).

Bytes are modelled as Nat (each meaningful value is below 256); byte strings
as List Nat. The external crates aes, cmac and block_modes supply the
cryptographic primitives; they are not part of this repository, so they are
modelled as a parameter structure CryptoPrims carrying the algebraic laws a
block cipher and a MAC provide (deterministic functions, 16-byte outputs,
decryption inverts encryption on full blocks).
-/

namespace Yubihsm

/-- Big-endian 16-bit encoding of a Nat, as written by write_u16 after a cast
to u16 (the cast wraps modulo 2^16). -/
def be16 (n : Nat) : List Nat :=
  [n % 65536 / 256, n % 256]

/-- Big-endian 16-bit read, as performed by read_u16 on two bytes. -/
def read16 (b0 b1 : Nat) : Nat :=
  b0 * 256 + b1

/-- Bytewise xor of two byte strings of equal length. -/
def xorBytes (a b : List Nat) : List Nat :=
  List.zipWith Nat.xor a b

/-- Fuel-driven recursion of toBlocks; the fuel bounds the number of
blocks and is always instantiated with the length of the string. -/
def toBlocksGo : Nat → List Nat → List (List Nat)
  | 0, _ => []
  | fuel + 1, l => if l = [] then [] else l.take 16 :: toBlocksGo fuel (l.drop 16)

/-- Split a byte string into consecutive 16-byte blocks. -/
def toBlocks (l : List Nat) : List (List Nat) :=
  toBlocksGo l.length l

/-- Concatenate a list of blocks back into one byte string. -/
def fromBlocks (bs : List (List Nat)) : List Nat :=
  bs.flatten

/-- ISO/IEC 7816-4 padding as applied by the block_modes crate: append the
byte 0x80 and then zeros up to the next multiple of the block size; a full
extra block is added when the input length is already a multiple of 16. -/
def pad7816 (msg : List Nat) : List Nat :=
  msg ++ 0x80 :: List.replicate (15 - msg.length % 16) 0

/-- ISO/IEC 7816-4 unpadding: strip trailing zeros, then require and strip a
final 0x80 byte; anything else is a padding failure. -/
def unpad7816 (msg : List Nat) : Option (List Nat) :=
  let trimmed := (msg.reverse.dropWhile (fun b => b = 0)).reverse
  match trimmed.getLast? with
  | some 0x80 => some trimmed.dropLast
  | _ => none

/-- Cryptographic primitives supplied by the external aes, cmac and
block_modes crates: an AES-128 block encryption and decryption, and an
AES-128-CMAC. The fields state the laws those crates provide which the
secure channel relies on: CMAC yields a 16-byte tag, encryption maps
16-byte blocks to 16-byte blocks, and decryption inverts encryption. -/
structure CryptoPrims where
  encBlock : List Nat → List Nat → List Nat
  decBlock : List Nat → List Nat → List Nat
  cmac : List Nat → List Nat → List Nat
  cmac_len : ∀ k m, (cmac k m).length = 16
  encBlock_len : ∀ k b, b.length = 16 → (encBlock k b).length = 16
  dec_enc : ∀ k b, b.length = 16 → decBlock k (encBlock k b) = b

/-- CBC encryption over a list of 16-byte blocks with the given IV chaining. -/
def cbcEncBlocks (P : CryptoPrims) (key : List Nat) : List Nat → List (List Nat) → List (List Nat)
  | _, [] => []
  | iv, b :: bs =>
    let c := P.encBlock key (xorBytes iv b)
    c :: cbcEncBlocks P key c bs

/-- CBC decryption over a list of 16-byte ciphertext blocks. -/
def cbcDecBlocks (P : CryptoPrims) (key : List Nat) : List Nat → List (List Nat) → List (List Nat)
  | _, [] => []
  | iv, c :: cs => xorBytes iv (P.decBlock key c) :: cbcDecBlocks P key c cs

/-- CBC-encrypt a byte string (already padded to a block multiple). -/
def cbcEncrypt (P : CryptoPrims) (key iv msg : List Nat) : List Nat :=
  fromBlocks (cbcEncBlocks P key iv (toBlocks msg))

/-- CBC-decrypt with padding removal, as decrypt_pad of the block_modes
crate: fails when the input is not a block multiple or the padding is bad. -/
def cbcDecryptPad (P : CryptoPrims) (key iv ct : List Nat) : Option (List Nat) :=
  if ct.length % 16 = 0 then
    unpad7816 (fromBlocks (cbcDecBlocks P key iv (toBlocks ct)))
  else
    none

/-- Modelled from the spec: the command-code enumeration is not under src/
(only its uses are); the spec names the codes consumed by the core,
CreateSession = 0x03, AuthSession = 0x04, SessionMessage = 0x05,
CloseSession = 0x40, and the Echo command (0x01) used by the scenarios;
other codes are opaque to the core. -/
inductive CommandCode
  | Echo
  | CreateSession
  | AuthSession
  | SessionMessage
  | CloseSession
  deriving DecidableEq, Repr

namespace CommandCode

/-- Byte tag of a command code. -/
def to_u8 : CommandCode → Nat
  | .Echo => 0x01
  | .CreateSession => 0x03
  | .AuthSession => 0x04
  | .SessionMessage => 0x05
  | .CloseSession => 0x40

/-- Modelled from the spec: command codes form a closed set that round-trips
through a single byte; unknown bytes are rejected. -/
def from_u8 (b : Nat) : Option CommandCode :=
  match b with
  | 0x01 => some .Echo
  | 0x03 => some .CreateSession
  | 0x04 => some .AuthSession
  | 0x05 => some .SessionMessage
  | 0x40 => some .CloseSession
  | _ => none

end CommandCode

/-- Modelled from the spec: response codes are either Success(cmd_code) =
cmd_code OR 0x80, or one of 17 device-error codes DeviceOk = 0x00 through
DeviceObjectExists = 0x10, plus GenericError = 0x7f. -/
inductive ResponseCode
  | Success (cmd : CommandCode)
  | DeviceOk
  | DeviceInvalidCommand
  | DeviceInvalidData
  | DeviceInvalidSession
  | DeviceAuthFail
  | DeviceSessionsFull
  | DeviceSessionFailed
  | DeviceStorageFailed
  | DeviceWrongLength
  | DeviceInvalidPermission
  | DeviceLogFull
  | DeviceObjNotFound
  | DeviceIDIllegal
  | DeviceInvalidOTP
  | DeviceDemoMode
  | DeviceCmdUnexecuted
  | DeviceObjectExists
  | GenericError
  deriving DecidableEq, Repr

namespace ResponseCode

/-- Byte tag of a response code: success codes set the top bit of the
underlying command code; device errors use their own low-range bytes. -/
def to_u8 : ResponseCode → Nat
  | .Success cmd => cmd.to_u8 + 0x80
  | .DeviceOk => 0x00
  | .DeviceInvalidCommand => 0x01
  | .DeviceInvalidData => 0x02
  | .DeviceInvalidSession => 0x03
  | .DeviceAuthFail => 0x04
  | .DeviceSessionsFull => 0x05
  | .DeviceSessionFailed => 0x06
  | .DeviceStorageFailed => 0x07
  | .DeviceWrongLength => 0x08
  | .DeviceInvalidPermission => 0x09
  | .DeviceLogFull => 0x0a
  | .DeviceObjNotFound => 0x0b
  | .DeviceIDIllegal => 0x0c
  | .DeviceInvalidOTP => 0x0d
  | .DeviceDemoMode => 0x0e
  | .DeviceCmdUnexecuted => 0x0f
  | .DeviceObjectExists => 0x10
  | .GenericError => 0x7f

/-- Modelled from the spec: parse a response-code byte; bytes with the top
bit set decode as Success of the underlying command code, low bytes decode
as device-error codes, anything else is rejected. -/
def from_u8 (b : Nat) : Option ResponseCode :=
  if b ≥ 0x80 then
    (CommandCode.from_u8 (b - 0x80)).map ResponseCode.Success
  else
    match b with
    | 0x00 => some .DeviceOk
    | 0x01 => some .DeviceInvalidCommand
    | 0x02 => some .DeviceInvalidData
    | 0x03 => some .DeviceInvalidSession
    | 0x04 => some .DeviceAuthFail
    | 0x05 => some .DeviceSessionsFull
    | 0x06 => some .DeviceSessionFailed
    | 0x07 => some .DeviceStorageFailed
    | 0x08 => some .DeviceWrongLength
    | 0x09 => some .DeviceInvalidPermission
    | 0x0a => some .DeviceLogFull
    | 0x0b => some .DeviceObjNotFound
    | 0x0c => some .DeviceIDIllegal
    | 0x0d => some .DeviceInvalidOTP
    | 0x0e => some .DeviceDemoMode
    | 0x0f => some .DeviceCmdUnexecuted
    | 0x10 => some .DeviceObjectExists
    | 0x7f => some .GenericError
    | _ => none

end ResponseCode

/-- Kinds of errors which originate in the HSM, from src/error.rs. The
Unknown variant carries the unrecognized byte tag. -/
inductive HsmErrorKind
  | Unknown (code : Nat)
  | CommandInvalid
  | DataInvalid
  | SessionInvalid
  | AuthFail
  | SessionsFull
  | SessionFailed
  | StorageFailed
  | WrongLength
  | PermissionInvalid
  | LogFull
  | ObjectNotFound
  | IDIllegal
  | InvalidOTP
  | DemoMode
  | CmdUnexecuted
  | GenericError
  | ObjectExists
  deriving DecidableEq, Repr

namespace HsmErrorKind

/-- Create an HsmErrorKind from the given byte tag (src/error.rs from_u8). -/
def from_u8 (tag : Nat) : HsmErrorKind :=
  match tag with
  | 0x01 => .CommandInvalid
  | 0x02 => .DataInvalid
  | 0x03 => .SessionInvalid
  | 0x04 => .AuthFail
  | 0x05 => .SessionsFull
  | 0x06 => .SessionFailed
  | 0x07 => .StorageFailed
  | 0x08 => .WrongLength
  | 0x09 => .PermissionInvalid
  | 0x0a => .LogFull
  | 0x0b => .ObjectNotFound
  | 0x0c => .IDIllegal
  | 0x0d => .InvalidOTP
  | 0x0e => .DemoMode
  | 0x0f => .CmdUnexecuted
  | 0x10 => .GenericError
  | 0x11 => .ObjectExists
  | code => .Unknown code

/-- Serialize an HsmErrorKind as a byte tag (src/error.rs to_u8). -/
def to_u8 : HsmErrorKind → Nat
  | .Unknown code => code
  | .CommandInvalid => 0x01
  | .DataInvalid => 0x02
  | .SessionInvalid => 0x03
  | .AuthFail => 0x04
  | .SessionsFull => 0x05
  | .SessionFailed => 0x06
  | .StorageFailed => 0x07
  | .WrongLength => 0x08
  | .PermissionInvalid => 0x09
  | .LogFull => 0x0a
  | .ObjectNotFound => 0x0b
  | .IDIllegal => 0x0c
  | .InvalidOTP => 0x0d
  | .DemoMode => 0x0e
  | .CmdUnexecuted => 0x0f
  | .GenericError => 0x10
  | .ObjectExists => 0x11

end HsmErrorKind

/-- Connection error kinds from src/connector/error.rs (kinds only; the
descriptions attached by the Error wrapper are not modelled). -/
inductive ConnectionErrorKind
  | AddrInvalid
  | AccessDenied
  | DeviceBusyError
  | ConnectionFailed
  | IoError
  | RequestError
  | ResponseError
  | UsbError
  deriving DecidableEq, Repr

/-- Modelled from the spec: the session error kinds (the file defining
SessionErrorKind is not under src/); the set of variants is fixed by the
exhaustive match in the From impl of src/client/error.rs together with the
error taxonomy of the spec. -/
inductive SessionErrorKind
  | AuthFail
  | ClosedSessionError
  | CreateFailed
  | DeviceError (kind : HsmErrorKind)
  | ProtocolError
  | CommandLimitExceeded
  | MismatchError
  | VerifyFailed
  | ResponseError
  deriving DecidableEq, Repr

/-- Client-facing error kinds from src/client/error.rs. -/
inductive ClientErrorKind
  | AuthFail
  | ClosedSessionError
  | ConnectionError (kind : ConnectionErrorKind)
  | CreateFailed
  | DeviceError (kind : HsmErrorKind)
  | ProtocolError
  | ResponseError
  deriving DecidableEq, Repr

/-- Conversion of session error kinds to client error kinds, from the
From impl for ClientError in src/client/error.rs (the descriptions, which
the wrapper copies verbatim, are not modelled; the kind mapping is). -/
def sessionToClientKind : SessionErrorKind → ClientErrorKind
  | .AuthFail => .AuthFail
  | .ClosedSessionError => .ClosedSessionError
  | .CreateFailed => .CreateFailed
  | .DeviceError kind => .DeviceError kind
  | .ProtocolError => .ProtocolError
  | .CommandLimitExceeded => .ProtocolError
  | .MismatchError => .ProtocolError
  | .VerifyFailed => .ProtocolError
  | .ResponseError => .ResponseError

/-- Maximum size of a message sent to/from the YubiHSM
(MAX_MSG_SIZE in src/session/message.rs). -/
def MAX_MSG_SIZE : Nat := 2048

/-- Size of the on-wire truncated MAC (MAC_SIZE). -/
def MAC_SIZE : Nat := 8

/-- Modelled from the spec: a session ID is one byte with value 0 to 15
(the file defining SessionId is not under src/). -/
abbrev SessionId := Fin 16

/-- Modelled from the spec: session IDs of 16 or more are invalid on parse
and rejected with a ProtocolError. -/
def SessionId.new (b : Nat) : Except SessionErrorKind SessionId :=
  if h : b < 16 then .ok ⟨b, h⟩ else .error .ProtocolError

/-- Byte value of a session ID. -/
def SessionId.to_u8 (s : SessionId) : Nat := s.val

/-- A command sent from the host to the device, from src/session/message.rs.
The uuid field of the source, a random identifier never observed by the
protocol, is not modelled. The mac field holds the 8 on-wire tag bytes. -/
structure CommandMessage where
  command_type : CommandCode
  session_id : Option SessionId
  data : List Nat
  mac : Option (List Nat)
  deriving DecidableEq, Repr

namespace CommandMessage

/-- Create a new command message without a MAC (CommandMessage::new);
rejects command data longer than MAX_MSG_SIZE. -/
def new (command_type : CommandCode) (command_data : List Nat) :
    Except SessionErrorKind CommandMessage :=
  if command_data.length ≤ MAX_MSG_SIZE then
    .ok { command_type, session_id := none, data := command_data, mac := none }
  else
    .error .ProtocolError

/-- Create a new command message with a MAC (CommandMessage::new_with_mac);
the tag argument is converted Into a Mac, keeping its first 8 bytes. -/
def new_with_mac (command_type : CommandCode) (session_id : SessionId)
    (command_data : List Nat) (tag : List Nat) :
    Except SessionErrorKind CommandMessage :=
  if command_data.length ≤ MAX_MSG_SIZE then
    .ok { command_type, session_id := some session_id,
          data := command_data, mac := some (tag.take MAC_SIZE) }
  else
    .error .ProtocolError

/-- Length of the serialized message, sans command type and length field
(CommandMessage::len). -/
def len (m : CommandMessage) : Nat :=
  m.data.length + (if m.session_id.isSome then 1 else 0)
    + (if m.mac.isSome then MAC_SIZE else 0)

/-- Serialize a command message (the Into Vec impl): code byte, big-endian
16-bit length, optional session ID byte, data, optional MAC bytes. -/
def serialize (m : CommandMessage) : List Nat :=
  m.command_type.to_u8 :: be16 m.len
    ++ (match m.session_id with | some sid => [sid.to_u8] | none => [])
    ++ m.data
    ++ (match m.mac with | some mac => mac | none => [])

/-- Parse a command structure from a byte vector (CommandMessage::parse). -/
def parse (bytes : List Nat) : Except SessionErrorKind CommandMessage :=
  if bytes.length < 3 then .error .ProtocolError else
  match CommandCode.from_u8 (bytes.getD 0 0) with
  | none => .error .ProtocolError
  | some command_type =>
    let length := read16 (bytes.getD 1 0) (bytes.getD 2 0)
    if length + 3 ≠ bytes.length then .error .ProtocolError else
    let rest := bytes.drop 3
    match command_type with
    | .AuthSession | .SessionMessage =>
      match rest with
      | [] => .error .ProtocolError
      | sidByte :: rest2 =>
        match SessionId.new sidByte with
        | .error e => .error e
        | .ok sid =>
          if rest2.length < MAC_SIZE then .error .ProtocolError else
          let mac_index := rest2.length - MAC_SIZE
          .ok { command_type, session_id := some sid,
                data := rest2.take mac_index, mac := some (rest2.drop mac_index) }
    | _ => .ok { command_type, session_id := none, data := rest, mac := none }

end CommandMessage

/-- Do responses with the given code include a session ID?
(has_session_id in src/session/message.rs). -/
def has_session_id : ResponseCode → Bool
  | .Success cmd =>
    match cmd with
    | .CreateSession | .SessionMessage => true
    | _ => false
  | _ => false

/-- Do responses with the given code have a Response-MAC (R-MAC) value?
(has_rmac in src/session/message.rs). -/
def has_rmac : ResponseCode → Bool
  | .Success cmd =>
    match cmd with
    | .SessionMessage => true
    | _ => false
  | _ => false

/-- A command response, from src/session/message.rs. -/
structure ResponseMessage where
  code : ResponseCode
  session_id : Option SessionId
  data : List Nat
  mac : Option (List Nat)
  deriving DecidableEq, Repr

namespace ResponseMessage

/-- Parse a response into a ResponseMessage (ResponseMessage::parse). -/
def parse (bytes : List Nat) : Except SessionErrorKind ResponseMessage :=
  if bytes.length < 3 then .error .ProtocolError else
  match ResponseCode.from_u8 (bytes.getD 0 0) with
  | none => .error .ProtocolError
  | some code =>
    let length := read16 (bytes.getD 1 0) (bytes.getD 2 0)
    if length + 3 ≠ bytes.length then .error .ProtocolError else
    let rest := bytes.drop 3
    if has_session_id code then
      match rest with
      | [] => .error .ProtocolError
      | sidByte :: rest2 =>
        match SessionId.new sidByte with
        | .error e => .error e
        | .ok sid =>
          if has_rmac code then
            if rest2.length < MAC_SIZE then .error .ProtocolError else
            let mac_index := rest2.length - MAC_SIZE
            .ok { code, session_id := some sid,
                  data := rest2.take mac_index, mac := some (rest2.drop mac_index) }
          else
            .ok { code, session_id := some sid, data := rest2, mac := none }
    else
      if has_rmac code then
        if rest.length < MAC_SIZE then .error .ProtocolError else
        let mac_index := rest.length - MAC_SIZE
        .ok { code, session_id := none,
              data := rest.take mac_index, mac := some (rest.drop mac_index) }
      else
        .ok { code, session_id := none, data := rest, mac := none }

/-- Create a new response without an associated session
(ResponseMessage::new). -/
def new (code : ResponseCode) (response_data : List Nat) : ResponseMessage :=
  { code, session_id := none, data := response_data, mac := none }

/-- Create a new response message with a MAC (ResponseMessage::new_with_mac);
the tag argument is converted Into a Mac, keeping its first 8 bytes.
Unlike the command constructors, there is no size check. -/
def new_with_mac (code : ResponseCode) (session_id : SessionId)
    (response_data : List Nat) (tag : List Nat) : ResponseMessage :=
  { code, session_id := some session_id,
    data := response_data, mac := some (tag.take MAC_SIZE) }

/-- Create a successful response (ResponseMessage::success). -/
def success (command_type : CommandCode) (response_data : List Nat) : ResponseMessage :=
  new (.Success command_type) response_data

/-- Did an error occur? (ResponseMessage::is_err). -/
def is_err (r : ResponseMessage) : Bool :=
  match r.code with
  | .Success _ => false
  | _ => true

/-- Get the command being responded to (ResponseMessage::command). -/
def command (r : ResponseMessage) : Option CommandCode :=
  match r.code with
  | .Success cmd => some cmd
  | _ => none

/-- Total length of the response, sans code and length field
(ResponseMessage::len). -/
def len (r : ResponseMessage) : Nat :=
  r.data.length + (if r.session_id.isSome then 1 else 0)
    + (if r.mac.isSome then MAC_SIZE else 0)

/-- Serialize a response (the Into Vec impl for ResponseMessage). -/
def serialize (r : ResponseMessage) : List Nat :=
  r.code.to_u8 :: be16 r.len
    ++ (match r.session_id with | some sid => [sid.to_u8] | none => [])
    ++ r.data
    ++ (match r.mac with | some mac => mac | none => [])

end ResponseMessage

/-- AES key size in bytes (KEY_SIZE in src/session/securechannel/mod.rs). -/
def KEY_SIZE : Nat := 16

/-- Size of a challenge (CHALLENGE_SIZE). -/
def CHALLENGE_SIZE : Nat := 8

/-- Size of a cryptogram (CRYPTOGRAM_SIZE). -/
def CRYPTOGRAM_SIZE : Nat := 8

/-- Maximum number of messages allowed in a single session
(MAX_COMMANDS_PER_SESSION in src/session/securechannel/mod.rs). -/
def MAX_COMMANDS_PER_SESSION : Nat := 0x100000

/-- Current security level: protocol state of a channel
(SecurityLevel in src/session/securechannel/mod.rs). -/
inductive SecurityLevel
  | None
  | Authenticated
  | Terminated
  deriving DecidableEq, Repr

/-- Modelled from the spec: an AuthKey is 32 bytes, a 16-byte encryption key
K-ENC concatenated with a 16-byte MAC key K-MAC (the file defining AuthKey
is not under src/). -/
structure AuthKey where
  enc_key : List Nat
  mac_key : List Nat
  deriving DecidableEq, Repr

/-- Modelled from the spec: the SCP03 KDF (src/session/securechannel/kdf.rs
is not under src/). The derivation data block is 11 zero bytes, the label
byte, a zero byte, the output bit length 0x0080 big-endian, a block counter
byte 0x01, followed by the 16-byte context; the block is CMACed under the
parent key to yield 16 bytes of output. -/
def kdfDerive (P : CryptoPrims) (parent_key : List Nat) (label : Nat)
    (context : List Nat) : List Nat :=
  P.cmac parent_key
    (List.replicate 11 0 ++ [label, 0x00, 0x00, 0x80, 0x01] ++ context)

/-- Big-endian 32-bit encoding of a counter value, as written by write_u32. -/
def be32 (n : Nat) : List Nat :=
  [n / 2 ^ 24 % 256, n / 2 ^ 16 % 256, n / 2 ^ 8 % 256, n % 256]

/-- Compute an Initial Chaining Vector from a counter (compute_icv):
AES-encrypt a block of 12 zero bytes followed by the big-endian counter. -/
def computeIcv (P : CryptoPrims) (key : List Nat) (counter : Nat) : List Nat :=
  P.encBlock key (List.replicate 12 0 ++ be32 counter)

/-- SCP03 Secure Channel state, from src/session/securechannel/mod.rs. -/
structure SecureChannel where
  id : SessionId
  counter : Nat
  security_level : SecurityLevel
  context : List Nat
  enc_key : List Nat
  mac_key : List Nat
  rmac_key : List Nat
  mac_chaining_value : List Nat
  deriving DecidableEq, Repr

namespace SecureChannel

/-- Create a new channel with the given ID, auth key, and host/card
challenges (SecureChannel::new). -/
def new (P : CryptoPrims) (id : SessionId) (auth_key : AuthKey)
    (host_challenge card_challenge : List Nat) : SecureChannel :=
  let context := host_challenge ++ card_challenge
  { id
    counter := 0
    security_level := SecurityLevel.None
    context
    enc_key := kdfDerive P auth_key.enc_key 0b100 context
    mac_key := kdfDerive P auth_key.mac_key 0b110 context
    rmac_key := kdfDerive P auth_key.mac_key 0b111 context
    mac_chaining_value := List.replicate (MAC_SIZE * 2) 0 }

/-- Calculate the cards cryptogram for this session (card_cryptogram):
the first 8 bytes of the KDF output at label 0 under S-MAC. -/
def card_cryptogram (P : CryptoPrims) (ch : SecureChannel) : List Nat :=
  (kdfDerive P ch.mac_key 0 ch.context).take CRYPTOGRAM_SIZE

/-- Calculate the hosts cryptogram for this session (host_cryptogram):
the first 8 bytes of the KDF output at label 1 under S-MAC. -/
def host_cryptogram (P : CryptoPrims) (ch : SecureChannel) : List Nat :=
  (kdfDerive P ch.mac_key 1 ch.context).take CRYPTOGRAM_SIZE

/-- Terminate the session (SecureChannel::terminate): set the Terminated
security level and zeroize the three session keys. The source does not
touch the mac_chaining_value here. -/
def terminate (ch : SecureChannel) : SecureChannel :=
  { ch with
    security_level := SecurityLevel.Terminated
    enc_key := List.replicate KEY_SIZE 0
    mac_key := List.replicate KEY_SIZE 0
    rmac_key := List.replicate KEY_SIZE 0 }

/-- Increment the internal message counter (increment_counter). The source
uses a checked u32 addition and panics on overflow; the panic is modelled
as the none outcome. -/
def increment_counter (ch : SecureChannel) : Option SecureChannel :=
  if ch.counter + 1 < 2 ^ 32 then
    some { ch with counter := ch.counter + 1 }
  else
    none

/-- Compute a command message with a MAC value for this session
(command_with_mac). Returns the updated channel together with the result:
past the command limit the channel is terminated; otherwise the CMAC tag
over the chaining value, code, length, session ID and data becomes the new
chaining value and the message carries its first 8 bytes. -/
def command_with_mac (P : CryptoPrims) (ch : SecureChannel)
    (command_type : CommandCode) (command_data : List Nat) :
    SecureChannel × Except SessionErrorKind CommandMessage :=
  if ch.counter ≥ MAX_COMMANDS_PER_SESSION then
    (ch.terminate, .error .CommandLimitExceeded)
  else
    let tag := P.cmac ch.mac_key
      (ch.mac_chaining_value ++ [command_type.to_u8]
        ++ be16 (1 + command_data.length + MAC_SIZE)
        ++ [ch.id.to_u8] ++ command_data)
    ({ ch with mac_chaining_value := tag },
      CommandMessage.new_with_mac command_type ch.id command_data tag)

/-- Compute a message for authenticating the host to the card
(authenticate_session). The source asserts the None security level and an
all-zero chaining value; a failed assertion is the none outcome. -/
def authenticate_session (P : CryptoPrims) (ch : SecureChannel) :
    Option (SecureChannel × Except SessionErrorKind CommandMessage) :=
  if ch.security_level = SecurityLevel.None
      ∧ ch.mac_chaining_value = List.replicate (MAC_SIZE * 2) 0 then
    some (ch.command_with_mac P .AuthSession (ch.host_cryptogram P))
  else
    none

/-- Handle the authenticate session response from the card
(finish_authenticate_session): on an empty response body the channel
becomes Authenticated with counter 1, otherwise terminate. -/
def finish_authenticate_session (ch : SecureChannel) (response : ResponseMessage) :
    SecureChannel × Except SessionErrorKind Unit :=
  if response.data ≠ [] then
    (ch.terminate, .error .ProtocolError)
  else
    ({ ch with security_level := SecurityLevel.Authenticated, counter := 1 }, .ok ())

/-- Encrypt a command to be sent to the card (encrypt_command): serialize
the inner command, CBC-encrypt it with ISO 7816 padding under S-ENC with
the counter-derived ICV, and wrap the ciphertext via command_with_mac. The
asserted Authenticated precondition is the none outcome. -/
def encrypt_command (P : CryptoPrims) (ch : SecureChannel) (command : CommandMessage) :
    Option (SecureChannel × Except SessionErrorKind CommandMessage) :=
  if ch.security_level = SecurityLevel.Authenticated then
    let message := command.serialize
    let icv := computeIcv P ch.enc_key ch.counter
    let ciphertext := cbcEncrypt P ch.enc_key icv (pad7816 message)
    some (ch.command_with_mac P .SessionMessage ciphertext)
  else
    none

/-- Verify the response MAC (R-MAC) sent from the card
(verify_response_mac). A missing session ID terminates with ProtocolError;
a foreign session ID terminates with MismatchError; a tag mismatch
terminates with VerifyFailed; on success the counter is incremented and
nothing else changes. The asserted Authenticated precondition and the
expect on a missing MAC are the none outcome (a panic in the source). -/
def verify_response_mac (P : CryptoPrims) (ch : SecureChannel) (response : ResponseMessage) :
    Option (SecureChannel × Except SessionErrorKind Unit) :=
  if ch.security_level = SecurityLevel.Authenticated then
    match response.session_id with
    | none => some (ch.terminate, .error .ProtocolError)
    | some session_id =>
      if ch.id ≠ session_id then
        some (ch.terminate, .error .MismatchError)
      else
        let tag := P.cmac ch.rmac_key
          (ch.mac_chaining_value ++ [response.code.to_u8]
            ++ be16 response.len ++ [session_id.to_u8] ++ response.data)
        match response.mac with
        | none => none
        | some m =>
          if m ≠ tag.take MAC_SIZE then
            some (ch.terminate, .error .VerifyFailed)
          else
            match ch.increment_counter with
            | none => none
            | some ch1 => some (ch1, .ok ())
  else
    none

/-- Verify and decrypt a response from the card (decrypt_response): the ICV
is computed from the pre-increment counter, the MAC is verified first, then
the body is CBC-decrypted, unpadded, parsed, and given the outer session
ID. A padding or length failure terminates with ProtocolError. -/
def decrypt_response (P : CryptoPrims) (ch : SecureChannel)
    (encrypted_response : ResponseMessage) :
    Option (SecureChannel × Except SessionErrorKind ResponseMessage) :=
  if ch.security_level = SecurityLevel.Authenticated then
    let icv := computeIcv P ch.enc_key ch.counter
    match ch.verify_response_mac P encrypted_response with
    | none => none
    | some (ch1, .error e) => some (ch1, .error e)
    | some (ch1, .ok ()) =>
      match cbcDecryptPad P ch1.enc_key icv encrypted_response.data with
      | none => some (ch1.terminate, .error .ProtocolError)
      | some plaintext =>
        match ResponseMessage.parse plaintext with
        | .error e => some (ch1, .error e)
        | .ok decrypted =>
          some (ch1, .ok { decrypted with session_id := encrypted_response.session_id })
  else
    none

/-- Verify a Command MAC (C-MAC) value, updating the internal session state
(verify_command_mac, device side). The source asserts the session ID
matches and expects a MAC to be present (panics, modelled as none); a tag
mismatch terminates with VerifyFailed; on success the chaining value is
replaced by the full tag. -/
def verify_command_mac (P : CryptoPrims) (ch : SecureChannel) (command : CommandMessage) :
    Option (SecureChannel × Except SessionErrorKind Unit) :=
  match command.session_id with
  | none => none
  | some sid =>
    if sid ≠ ch.id then
      none
    else
      let tag := P.cmac ch.mac_key
        (ch.mac_chaining_value ++ [command.command_type.to_u8]
          ++ be16 command.len ++ [sid.to_u8] ++ command.data)
      match command.mac with
      | none => none
      | some m =>
        if m ≠ tag.take MAC_SIZE then
          some (ch.terminate, .error .VerifyFailed)
        else
          some ({ ch with mac_chaining_value := tag }, .ok ())

/-- Verify a host authentication message (verify_authenticate_session,
device side): checks the cryptogram length, the host cryptogram in constant
time, and the C-MAC; on success the channel becomes Authenticated with
counter 1 and an empty AuthSession success response is returned. The
asserted preconditions are the none outcome. -/
def verify_authenticate_session (P : CryptoPrims) (ch : SecureChannel)
    (command : CommandMessage) :
    Option (SecureChannel × Except SessionErrorKind ResponseMessage) :=
  if ch.security_level = SecurityLevel.None
      ∧ ch.mac_chaining_value = List.replicate (MAC_SIZE * 2) 0 then
    if command.data.length ≠ CRYPTOGRAM_SIZE then
      some (ch.terminate, .error .ProtocolError)
    else if ch.host_cryptogram P ≠ command.data then
      some (ch.terminate, .error .VerifyFailed)
    else
      match ch.verify_command_mac P command with
      | none => none
      | some (ch1, .error e) => some (ch1, .error e)
      | some (ch1, .ok ()) =>
        some ({ ch1 with security_level := SecurityLevel.Authenticated, counter := 1 },
          .ok (ResponseMessage.success .AuthSession []))
  else
    none

/-- Verify and decrypt a command from the host (decrypt_command, device
side): mirror of decrypt_response using the C-MAC check and command
parsing. -/
def decrypt_command (P : CryptoPrims) (ch : SecureChannel)
    (encrypted_command : CommandMessage) :
    Option (SecureChannel × Except SessionErrorKind CommandMessage) :=
  if ch.security_level = SecurityLevel.Authenticated then
    let icv := computeIcv P ch.enc_key ch.counter
    match ch.verify_command_mac P encrypted_command with
    | none => none
    | some (ch1, .error e) => some (ch1, .error e)
    | some (ch1, .ok ()) =>
      match cbcDecryptPad P ch1.enc_key icv encrypted_command.data with
      | none => some (ch1.terminate, .error .ProtocolError)
      | some plaintext =>
        match CommandMessage.parse plaintext with
        | .error e => some (ch1, .error e)
        | .ok decrypted =>
          some (ch1, .ok { decrypted with session_id := encrypted_command.session_id })
  else
    none

/-- Compute the MAC for a response message (response_with_mac, device
side): the R-MAC tag is computed under S-RMAC over the current chaining
value but the chaining value is not updated; the counter is incremented.
The asserted Authenticated precondition and the checked-add panic are the
none outcome. -/
def response_with_mac (P : CryptoPrims) (ch : SecureChannel)
    (code : ResponseCode) (response_data : List Nat) :
    Option (SecureChannel × Except SessionErrorKind ResponseMessage) :=
  if ch.security_level = SecurityLevel.Authenticated then
    let tag := P.cmac ch.rmac_key
      (ch.mac_chaining_value ++ [code.to_u8]
        ++ be16 (1 + response_data.length + MAC_SIZE)
        ++ [ch.id.to_u8] ++ response_data)
    match ch.increment_counter with
    | none => none
    | some ch1 =>
      some (ch1, .ok (ResponseMessage.new_with_mac code ch.id response_data tag))
  else
    none

/-- Encrypt a response to be sent back to the host (encrypt_response,
device side): serialize, pad, CBC-encrypt under S-ENC with the
counter-derived ICV, then wrap via response_with_mac. -/
def encrypt_response (P : CryptoPrims) (ch : SecureChannel) (response : ResponseMessage) :
    Option (SecureChannel × Except SessionErrorKind ResponseMessage) :=
  if ch.security_level = SecurityLevel.Authenticated then
    let message := response.serialize
    let icv := computeIcv P ch.enc_key ch.counter
    let ciphertext := cbcEncrypt P ch.enc_key icv (pad7816 message)
    ch.response_with_mac P (.Success .SessionMessage) ciphertext
  else
    none

end SecureChannel

/-- Does a command code parse without a session ID and MAC? Both parse
branches of the codec are driven by membership in the AuthSession /
SessionMessage set. -/
def CommandCode.is_plain : CommandCode → Bool
  | .AuthSession => false
  | .SessionMessage => false
  | _ => true

/-- A command message is well formed when its optional fields match its
code: session ID and an 8-byte MAC present exactly for AuthSession and
SessionMessage commands, absent otherwise. -/
def CommandMessage.wellFormed (m : CommandMessage) : Prop :=
  (m.command_type.is_plain = true → m.session_id = none ∧ m.mac = none)
    ∧ (m.command_type.is_plain = false →
        m.session_id.isSome = true ∧ m.mac.map List.length = some MAC_SIZE)

/-- A response message is well formed when its optional fields match its
code: session ID present exactly when has_session_id holds, and an 8-byte
MAC present exactly when has_rmac holds. -/
def ResponseMessage.wellFormed (r : ResponseMessage) : Prop :=
  (if has_session_id r.code then r.session_id.isSome = true else r.session_id = none)
    ∧ (if has_rmac r.code then r.mac.map List.length = some MAC_SIZE else r.mac = none)

/-- One full command/response exchange between a paired host and card
channel, following the happy path of the source test suite: the host
encrypts the command, the card decrypts it and echoes its data back in a
successful response, and the host decrypts the response. -/
def exchange (P : CryptoPrims) (host card : SecureChannel)
    (code : CommandCode) (data : List Nat) :
    Option (SecureChannel × SecureChannel × CommandMessage × ResponseMessage) :=
  match CommandMessage.new code data with
  | .error _ => none
  | .ok cmd =>
    match host.encrypt_command P cmd with
    | some (host1, .ok wire_cmd) =>
      match card.decrypt_command P wire_cmd with
      | some (card1, .ok decrypted_cmd) =>
        match card1.encrypt_response P
            (ResponseMessage.success decrypted_cmd.command_type decrypted_cmd.data) with
        | some (card2, .ok wire_resp) =>
          match host1.decrypt_response P wire_resp with
          | some (host2, .ok decrypted_resp) =>
            some (host2, card2, decrypted_cmd, decrypted_resp)
          | _ => none
        | _ => none
      | _ => none
    | _ => none

/-- Run a sequence of exchanges, returning the final channel states and the
list of command codes and data recovered by the card. -/
def runExchanges (P : CryptoPrims) :
    SecureChannel → SecureChannel → List (CommandCode × List Nat) →
    Option (SecureChannel × SecureChannel × List (CommandCode × List Nat))
  | host, card, [] => some (host, card, [])
  | host, card, (code, data) :: rest =>
    match exchange P host card code data with
    | none => none
    | some (host1, card1, dec_cmd, _) =>
      match runExchanges P host1 card1 rest with
      | none => none
      | some (host2, card2, recovered) =>
        some (host2, card2, (dec_cmd.command_type, dec_cmd.data) :: recovered)

/-- Create a host and a card channel from the same auth key, session ID and
challenges, and take them through the authenticate_session /
verify_authenticate_session / finish_authenticate_session handshake. -/
def handshake (P : CryptoPrims) (id : SessionId) (auth_key : AuthKey)
    (host_challenge card_challenge : List Nat) :
    Option (SecureChannel × SecureChannel) :=
  let host := SecureChannel.new P id auth_key host_challenge card_challenge
  let card := SecureChannel.new P id auth_key host_challenge card_challenge
  match host.authenticate_session P with
  | some (host1, .ok auth_cmd) =>
    match card.verify_authenticate_session P auth_cmd with
    | some (card1, .ok auth_resp) =>
      match host1.finish_authenticate_session auth_resp with
      | (host2, .ok ()) => some (host2, card1)
      | _ => none
    | _ => none
  | _ => none

/-- A concrete instantiation of the cryptographic primitives used to
evaluate the channel on explicit inputs: the block cipher is the identity
and the MAC hashes key and message into the last byte of a 16-byte tag. -/
def idPrims : CryptoPrims where
  encBlock := fun _ b => b
  decBlock := fun _ b => b
  cmac := fun k m => List.replicate 15 0 ++ [(k.sum + m.length + m.sum) % 256]
  cmac_len := by
    intro k m
    simp
  encBlock_len := by
    intro k b h
    exact h
  dec_enc := by
    intro k b _
    rfl

/-- Session error kinds that the client conversion collapses into
ClientErrorKind.ProtocolError. -/
def collapsesToProtocolError : SessionErrorKind → Bool
  | .ProtocolError => true
  | .CommandLimitExceeded => true
  | .MismatchError => true
  | .VerifyFailed => true
  | _ => false

/-- Commands that round-trip unchanged through a full encrypted exchange:
their code carries no session ID or MAC fields on the command side, and the
matching success response carries none either. -/
def CommandCode.exchangeable (c : CommandCode) : Bool :=
  c.is_plain && !(has_session_id (.Success c))

/-- Pairing invariant between a host channel and a card channel: both are
authenticated and agree on the counter, session ID, session keys and MAC
chaining value. -/
def Paired (host card : SecureChannel) : Prop :=
  host.security_level = SecurityLevel.Authenticated
    ∧ card.security_level = SecurityLevel.Authenticated
    ∧ host.counter = card.counter
    ∧ host.id = card.id
    ∧ host.enc_key = card.enc_key
    ∧ host.mac_key = card.mac_key
    ∧ host.rmac_key = card.rmac_key
    ∧ host.mac_chaining_value = card.mac_chaining_value

/-- An eight-byte all-zero challenge, as in the source test suite. -/
def zeros8 : List Nat := List.replicate 8 0

/-- An explicit auth key used for concrete evaluations. -/
def akEx : AuthKey :=
  { enc_key := List.replicate 16 1, mac_key := List.replicate 16 2 }

/-- A placeholder channel value used as the default of Option.getD. -/
def chJunk : SecureChannel :=
  { id := 0, counter := 0, security_level := SecurityLevel.None, context := []
    enc_key := [], mac_key := [], rmac_key := [], mac_chaining_value := [] }

/-- The host channel produced by a concrete handshake under idPrims. -/
def hostEx : SecureChannel :=
  ((handshake idPrims 0 akEx zeros8 zeros8).getD (chJunk, chJunk)).1

/-- The card channel produced by a concrete handshake under idPrims. -/
def cardEx : SecureChannel :=
  ((handshake idPrims 0 akEx zeros8 zeros8).getD (chJunk, chJunk)).2

/-- An explicit authenticated channel with a nonzero chaining value, used to
evaluate the channel operations on concrete inputs. -/
def chA : SecureChannel :=
  { id := 0, counter := 5, security_level := SecurityLevel.Authenticated
    context := List.replicate 16 0
    enc_key := List.replicate 16 1
    mac_key := List.replicate 16 2
    rmac_key := List.replicate 16 3
    mac_chaining_value := List.replicate 16 4 }

/-- A response whose MAC verifies against chA under idPrims. -/
def respA : ResponseMessage :=
  { code := .Success .SessionMessage, session_id := some 0, data := []
    mac := some (List.replicate 8 0) }

/-- A response whose MAC does not verify against chA under idPrims. -/
def respBad : ResponseMessage :=
  { code := .Success .SessionMessage, session_id := some 0, data := []
    mac := some (List.replicate 8 1) }

/-! Helper lemmas about the byte-level primitives. -/

theorem read16_be16 (n : Nat) (h : n < 65536) :
    read16 ((be16 n).getD 0 0) ((be16 n).getD 1 0) = n := by
  simp only [be16, read16, List.getD_cons_zero, List.getD_cons_succ]
  omega

theorem pad7816_length (m : List Nat) :
    (pad7816 m).length = m.length + (16 - m.length % 16) := by
  simp only [pad7816, List.length_append, List.length_cons, List.length_replicate]
  omega

theorem pad7816_mod (m : List Nat) : (pad7816 m).length % 16 = 0 := by
  rw [pad7816_length]
  omega

theorem dropWhile_zeros (k : Nat) (rest : List Nat) :
    (List.replicate k 0 ++ 128 :: rest).dropWhile (fun b => decide (b = 0)) = 128 :: rest := by
  induction k with
  | zero => simp [List.dropWhile]
  | succ n ih => simp [List.replicate_succ, List.dropWhile, ih]

theorem unpad7816_pad7816 (m : List Nat) : unpad7816 (pad7816 m) = some m := by
  have h1 : (pad7816 m).reverse
      = List.replicate (15 - m.length % 16) 0 ++ 128 :: m.reverse := by
    simp [pad7816, List.reverse_append]
  unfold unpad7816
  rw [h1, dropWhile_zeros]
  simp [List.getLast?_concat]

theorem toBlocksGo_congr : ∀ (f1 f2 : Nat) (l : List Nat),
    l.length ≤ f1 → l.length ≤ f2 → toBlocksGo f1 l = toBlocksGo f2 l := by
  intro f1
  induction f1 with
  | zero =>
    intro f2 l h1 _
    have hnil : l = [] := List.eq_nil_of_length_eq_zero (by omega)
    subst hnil
    cases f2 <;> simp [toBlocksGo]
  | succ n ih =>
    intro f2 l h1 h2
    cases f2 with
    | zero =>
      have hnil : l = [] := List.eq_nil_of_length_eq_zero (by omega)
      subst hnil
      simp [toBlocksGo]
    | succ m =>
      by_cases h : l = []
      · simp [h, toBlocksGo]
      · have hpos : 0 < l.length := List.length_pos.mpr h
        simp only [toBlocksGo, h, if_false]
        rw [ih m (l.drop 16) (by simp only [List.length_drop]; omega)
          (by simp only [List.length_drop]; omega)]

theorem toBlocks_eq (l : List Nat) :
    toBlocks l = if l = [] then [] else l.take 16 :: toBlocks (l.drop 16) := by
  by_cases h : l = []
  · subst h
    simp [toBlocks, toBlocksGo]
  · have hpos : 0 < l.length := List.length_pos.mpr h
    unfold toBlocks
    rw [show l.length = (l.length - 1) + 1 by omega]
    simp only [toBlocksGo, h, if_false]
    rw [toBlocksGo_congr (l.length - 1) (l.drop 16).length (l.drop 16)
      (by simp only [List.length_drop]; omega) (le_refl _)]

theorem fromBlocks_toBlocks (l : List Nat) : fromBlocks (toBlocks l) = l := by
  have H : ∀ n (l : List Nat), l.length ≤ n → fromBlocks (toBlocks l) = l := by
    intro n
    induction n with
    | zero =>
      intro l hl
      have hnil : l = [] := List.eq_nil_of_length_eq_zero (by omega)
      simp [hnil, toBlocks_eq, fromBlocks]
    | succ n ih =>
      intro l hl
      rw [toBlocks_eq]
      by_cases h : l = []
      · simp [h, fromBlocks]
      · have hpos : 0 < l.length := List.length_pos.mpr h
        simp only [h, if_false, fromBlocks, List.flatten_cons]
        rw [show (toBlocks (l.drop 16)).flatten = fromBlocks (toBlocks (l.drop 16)) from rfl]
        rw [ih (l.drop 16) (by simp only [List.length_drop]; omega)]
        exact List.take_append_drop 16 l
  exact H l.length l (le_refl _)

theorem toBlocks_all_16 (l : List Nat) (hmod : l.length % 16 = 0) :
    ∀ b ∈ toBlocks l, b.length = 16 := by
  have H : ∀ n (l : List Nat), l.length ≤ n → l.length % 16 = 0 →
      ∀ b ∈ toBlocks l, b.length = 16 := by
    intro n
    induction n with
    | zero =>
      intro l hl _
      have hnil : l = [] := List.eq_nil_of_length_eq_zero (by omega)
      simp [hnil, toBlocks_eq]
    | succ n ih =>
      intro l hl hm
      rw [toBlocks_eq]
      by_cases h : l = []
      · simp [h]
      · have hpos : 0 < l.length := List.length_pos.mpr h
        simp only [h, if_false, List.mem_cons]
        intro b hb
        rcases hb with hb | hb
        · subst hb
          simp only [List.length_take]
          omega
        · exact ih (l.drop 16) (by simp only [List.length_drop]; omega)
            (by simp only [List.length_drop]; omega) b hb
  exact H l.length l (le_refl _) hmod

theorem toBlocks_fromBlocks (bs : List (List Nat)) (h : ∀ b ∈ bs, b.length = 16) :
    toBlocks (fromBlocks bs) = bs := by
  induction bs with
  | nil => simp [fromBlocks, toBlocks_eq]
  | cons b rest ih =>
    have hb : b.length = 16 := h b (by simp)
    have hrest : ∀ x ∈ rest, x.length = 16 := fun x hx => h x (by simp [hx])
    have hne : fromBlocks (b :: rest) ≠ [] := by
      simp only [fromBlocks, List.flatten_cons]
      intro hcon
      have := congrArg List.length hcon
      simp [hb] at this
    rw [toBlocks_eq, if_neg hne]
    simp only [fromBlocks, List.flatten_cons]
    rw [show (16 : Nat) = b.length from hb.symm, List.take_left, List.drop_left]
    rw [show rest.flatten = fromBlocks rest from rfl, ih hrest]

theorem xorBytes_cancel (a b : List Nat) (h : a.length = b.length) :
    xorBytes a (xorBytes a b) = b := by
  induction a generalizing b with
  | nil =>
    have : b = [] := by
      cases b
      · rfl
      · simp at h
    simp [this, xorBytes]
  | cons x xs ih =>
    cases b with
    | nil => simp at h
    | cons y ys =>
      simp only [xorBytes, List.zipWith_cons_cons]
      have hx : Nat.xor x (Nat.xor x y) = y := Nat.xor_cancel_left x y
      rw [hx]
      rw [show List.zipWith Nat.xor xs (List.zipWith Nat.xor xs ys) = xorBytes xs (xorBytes xs ys) from rfl]
      rw [ih ys (by simpa using h)]

theorem cbcEncBlocks_all_16 (P : CryptoPrims) (key : List Nat) :
    ∀ iv bs, iv.length = 16 → (∀ b ∈ bs, b.length = 16) →
      ∀ c ∈ cbcEncBlocks P key iv bs, c.length = 16 := by
  intro iv bs
  induction bs generalizing iv with
  | nil => simp [cbcEncBlocks]
  | cons b rest ih =>
    intro hiv hall c hc
    have hb : b.length = 16 := hall b (by simp)
    have hxor : (xorBytes iv b).length = 16 := by
      simp [xorBytes, hiv, hb]
    have henc : (P.encBlock key (xorBytes iv b)).length = 16 :=
      P.encBlock_len key _ hxor
    simp only [cbcEncBlocks, List.mem_cons] at hc
    rcases hc with hc | hc
    · subst hc
      exact henc
    · exact ih _ henc (fun x hx => hall x (by simp [hx])) c hc

theorem cbcEncBlocks_length (P : CryptoPrims) (key : List Nat) :
    ∀ iv bs, (cbcEncBlocks P key iv bs).length = bs.length := by
  intro iv bs
  induction bs generalizing iv with
  | nil => simp [cbcEncBlocks]
  | cons b rest ih => simp [cbcEncBlocks, ih]

theorem cbcDec_cbcEnc (P : CryptoPrims) (key : List Nat) :
    ∀ iv bs, iv.length = 16 → (∀ b ∈ bs, b.length = 16) →
      cbcDecBlocks P key iv (cbcEncBlocks P key iv bs) = bs := by
  intro iv bs
  induction bs generalizing iv with
  | nil => simp [cbcEncBlocks, cbcDecBlocks]
  | cons b rest ih =>
    intro hiv hall
    have hb : b.length = 16 := hall b (by simp)
    have hxor : (xorBytes iv b).length = 16 := by
      simp [xorBytes, hiv, hb]
    have henc : (P.encBlock key (xorBytes iv b)).length = 16 :=
      P.encBlock_len key _ hxor
    simp only [cbcEncBlocks, cbcDecBlocks]
    have h1 : xorBytes iv (P.decBlock key (P.encBlock key (xorBytes iv b))) = b := by
      rw [P.dec_enc key _ hxor]
      exact xorBytes_cancel iv b (by omega)
    rw [h1, ih _ henc (fun x hx => hall x (by simp [hx]))]

theorem fromBlocks_length (bs : List (List Nat)) (h : ∀ b ∈ bs, b.length = 16) :
    (fromBlocks bs).length = 16 * bs.length := by
  induction bs with
  | nil => simp [fromBlocks]
  | cons b rest ih =>
    have hb : b.length = 16 := h b (by simp)
    have hrest := ih (fun x hx => h x (by simp [hx]))
    simp only [fromBlocks, List.flatten_cons, List.length_append, List.length_cons]
    rw [show rest.flatten = fromBlocks rest from rfl]
    omega

theorem cbc_roundtrip (P : CryptoPrims) (key iv m : List Nat) (hiv : iv.length = 16) :
    cbcDecryptPad P key iv (cbcEncrypt P key iv (pad7816 m)) = some m := by
  have hmod : (pad7816 m).length % 16 = 0 := pad7816_mod m
  have hall : ∀ b ∈ toBlocks (pad7816 m), b.length = 16 := toBlocks_all_16 _ hmod
  have hctall : ∀ c ∈ cbcEncBlocks P key iv (toBlocks (pad7816 m)), c.length = 16 :=
    cbcEncBlocks_all_16 P key iv _ hiv hall
  have hctlen : (cbcEncrypt P key iv (pad7816 m)).length % 16 = 0 := by
    unfold cbcEncrypt
    rw [fromBlocks_length _ hctall]
    omega
  unfold cbcDecryptPad cbcEncrypt
  rw [if_pos (by exact hctlen)]
  rw [toBlocks_fromBlocks _ hctall]
  rw [cbcDec_cbcEnc P key iv _ hiv hall]
  rw [fromBlocks_toBlocks]
  exact unpad7816_pad7816 m

theorem commandCode_from_to (c : CommandCode) : CommandCode.from_u8 c.to_u8 = some c := by
  cases c <;> rfl

theorem responseCode_from_to (c : ResponseCode) : ResponseCode.from_u8 c.to_u8 = some c := by
  cases c
  case Success cmd => cases cmd <;> rfl
  all_goals rfl

theorem sessionId_new_val (s : SessionId) : SessionId.new s.to_u8 = .ok s := by
  simp [SessionId.new, SessionId.to_u8, s.isLt]

theorem parse_serialize_command (m : CommandMessage) (hwf : m.wellFormed)
    (hlen : m.len < 65536) : CommandMessage.parse m.serialize = .ok m := by
  rcases m with ⟨ct, sid, data, mac⟩
  by_cases hp : ct.is_plain = true
  · obtain ⟨hsid, hmac⟩ := hwf.1 hp
    subst hsid hmac
    have hlen' : data.length < 65536 := by
      simpa [CommandMessage.len] using hlen
    have hser : CommandMessage.serialize ⟨ct, none, data, none⟩
        = ct.to_u8 :: (data.length % 65536 / 256) :: (data.length % 256) :: data := by
      simp [CommandMessage.serialize, CommandMessage.len, be16]
    rw [hser]
    unfold CommandMessage.parse
    rw [if_neg (by simp)]
    simp only [List.getD_cons_zero, List.getD_cons_succ]
    rw [commandCode_from_to]
    simp only [read16]
    rw [if_neg (by simp only [List.length_cons, ne_eq]; omega)]
    simp only [List.drop_succ_cons, List.drop_zero]
    cases ct
    · rfl
    · rfl
    · simp [CommandCode.is_plain] at hp
    · simp [CommandCode.is_plain] at hp
    · rfl
  · obtain ⟨hsid, hmac⟩ := hwf.2 (by simpa using hp)
    obtain ⟨s, hs⟩ := Option.isSome_iff_exists.mp hsid
    obtain ⟨mc, hmc⟩ : ∃ mc, mac = some mc := by
      cases mac
      · simp at hmac
      · exact ⟨_, rfl⟩
    subst hs hmc
    have hmclen : mc.length = 8 := by
      simpa [MAC_SIZE] using hmac
    have hlen' : data.length + 9 < 65536 := by
      have h2 := hlen
      simp [CommandMessage.len, MAC_SIZE] at h2
      omega
    have hlen2 : CommandMessage.len ⟨ct, some s, data, some mc⟩
        = data.length + 9 := by
      simp [CommandMessage.len, MAC_SIZE]
    have hser : CommandMessage.serialize ⟨ct, some s, data, some mc⟩
        = ct.to_u8 :: ((data.length + 9) % 65536 / 256)
            :: ((data.length + 9) % 256) :: s.to_u8 :: (data ++ mc) := by
      simp [CommandMessage.serialize, be16, hlen2]
    rw [hser]
    unfold CommandMessage.parse
    rw [if_neg (by simp)]
    simp only [List.getD_cons_zero, List.getD_cons_succ]
    rw [commandCode_from_to]
    simp only [read16]
    rw [if_neg (by
      simp only [List.length_cons, List.length_append, hmclen, ne_eq]
      omega)]
    simp only [List.drop_succ_cons, List.drop_zero]
    have hidx : (data ++ mc).length - MAC_SIZE = data.length := by
      simp [List.length_append, hmclen, MAC_SIZE]
    have htake : (data ++ mc).take ((data ++ mc).length - MAC_SIZE) = data := by
      rw [hidx]
      exact List.take_left data mc
    have hdrop : (data ++ mc).drop ((data ++ mc).length - MAC_SIZE) = mc := by
      rw [hidx]
      exact List.drop_left data mc
    have hct : ct = CommandCode.AuthSession ∨ ct = CommandCode.SessionMessage := by
      cases ct
      · exact absurd rfl hp
      · exact absurd rfl hp
      · exact Or.inl rfl
      · exact Or.inr rfl
      · exact absurd rfl hp
    have hsidnew := sessionId_new_val s
    rcases hct with h | h <;> subst h <;>
      simp [hsidnew, List.length_append, hmclen, MAC_SIZE,
        List.take_left, List.drop_left]

theorem has_rmac_imp_sid (code : ResponseCode) (h : has_rmac code = true) :
    has_session_id code = true := by
  cases code
  case Success cmd =>
    cases cmd <;> simp [has_rmac, has_session_id] at *
  all_goals simp [has_rmac] at h

theorem parse_serialize_response (r : ResponseMessage) (hwf : r.wellFormed)
    (hlen : r.len < 65536) : ResponseMessage.parse r.serialize = .ok r := by
  rcases r with ⟨code, sid, data, mac⟩
  obtain ⟨hwf1, hwf2⟩ := hwf
  by_cases hm : has_rmac code = true
  · have hs : has_session_id code = true := has_rmac_imp_sid code hm
    simp only [hs, if_true] at hwf1
    simp only [hm, if_true] at hwf2
    obtain ⟨s, hsv⟩ := Option.isSome_iff_exists.mp hwf1
    obtain ⟨mc, hmc⟩ : ∃ mc, mac = some mc := by
      cases mac
      · simp at hwf2
      · exact ⟨_, rfl⟩
    subst hsv hmc
    have hmclen : mc.length = 8 := by
      simpa [MAC_SIZE] using hwf2
    have hlen' : data.length + 9 < 65536 := by
      have h2 := hlen
      simp [ResponseMessage.len, MAC_SIZE] at h2
      omega
    have hlen2 : ResponseMessage.len ⟨code, some s, data, some mc⟩ = data.length + 9 := by
      simp [ResponseMessage.len, MAC_SIZE]
    have hser : ResponseMessage.serialize ⟨code, some s, data, some mc⟩
        = code.to_u8 :: ((data.length + 9) % 65536 / 256)
            :: ((data.length + 9) % 256) :: s.to_u8 :: (data ++ mc) := by
      simp [ResponseMessage.serialize, be16, hlen2]
    rw [hser]
    unfold ResponseMessage.parse
    rw [if_neg (by simp)]
    simp only [List.getD_cons_zero, List.getD_cons_succ]
    rw [responseCode_from_to]
    simp only [read16]
    rw [if_neg (by
      simp only [List.length_cons, List.length_append, hmclen, ne_eq]
      omega)]
    simp only [List.drop_succ_cons, List.drop_zero]
    simp [hs, hm, sessionId_new_val s, List.length_append, hmclen, MAC_SIZE,
      List.take_left, List.drop_left]
  · by_cases hs : has_session_id code = true
    · simp only [hs, if_true] at hwf1
      simp only [hm, if_false, Bool.false_eq_true] at hwf2
      obtain ⟨s, hsv⟩ := Option.isSome_iff_exists.mp hwf1
      subst hsv
      subst hwf2
      have hlen' : data.length + 1 < 65536 := by
        have h2 := hlen
        simp [ResponseMessage.len] at h2
        omega
      have hlen2 : ResponseMessage.len ⟨code, some s, data, none⟩ = data.length + 1 := by
        simp [ResponseMessage.len]
      have hser : ResponseMessage.serialize ⟨code, some s, data, none⟩
          = code.to_u8 :: ((data.length + 1) % 65536 / 256)
              :: ((data.length + 1) % 256) :: s.to_u8 :: data := by
        simp [ResponseMessage.serialize, be16, hlen2]
      rw [hser]
      unfold ResponseMessage.parse
      rw [if_neg (by simp)]
      simp only [List.getD_cons_zero, List.getD_cons_succ]
      rw [responseCode_from_to]
      simp only [read16]
      rw [if_neg (by simp only [List.length_cons, ne_eq]; omega)]
      simp only [List.drop_succ_cons, List.drop_zero]
      simp [hs, hm, sessionId_new_val s]
    · simp only [hs, if_false, Bool.false_eq_true] at hwf1
      simp only [hm, if_false, Bool.false_eq_true] at hwf2
      subst hwf1
      subst hwf2
      have hlen' : data.length < 65536 := by
        simpa [ResponseMessage.len] using hlen
      have hser : ResponseMessage.serialize ⟨code, none, data, none⟩
          = code.to_u8 :: (data.length % 65536 / 256) :: (data.length % 256) :: data := by
        simp [ResponseMessage.serialize, ResponseMessage.len, be16]
      rw [hser]
      unfold ResponseMessage.parse
      rw [if_neg (by simp)]
      simp only [List.getD_cons_zero, List.getD_cons_succ]
      rw [responseCode_from_to]
      simp only [read16]
      rw [if_neg (by simp only [List.length_cons, ne_eq]; omega)]
      simp only [List.drop_succ_cons, List.drop_zero]
      simp [hs, hm]

theorem serialize_length (m : CommandMessage) :
    m.serialize.length = 3 + m.data.length
      + (if m.session_id.isSome then 1 else 0)
      + (match m.mac with | some mc => mc.length | none => 0) := by
  rcases m with ⟨ct, sid, data, mac⟩
  cases sid <;> cases mac <;>
    (simp [CommandMessage.serialize, CommandMessage.len, be16]
     omega)

theorem command_with_mac_ok (P : CryptoPrims) (ch : SecureChannel) (ct : CommandCode)
    (data : List Nat) (hc : ch.counter < MAX_COMMANDS_PER_SESSION)
    (hd : data.length ≤ MAX_MSG_SIZE) :
    ch.command_with_mac P ct data
      = ({ ch with mac_chaining_value := P.cmac ch.mac_key (ch.mac_chaining_value
            ++ [ct.to_u8] ++ be16 (1 + data.length + MAC_SIZE) ++ [ch.id.to_u8] ++ data) },
          .ok { command_type := ct, session_id := some ch.id, data := data,
                mac := some ((P.cmac ch.mac_key (ch.mac_chaining_value ++ [ct.to_u8]
                  ++ be16 (1 + data.length + MAC_SIZE) ++ [ch.id.to_u8] ++ data)).take
                    MAC_SIZE) }) := by
  unfold SecureChannel.command_with_mac
  rw [if_neg (by omega)]
  unfold CommandMessage.new_with_mac
  simp only []
  rw [if_pos hd]

theorem verify_response_mac_error_state (P : CryptoPrims) (ch : SecureChannel)
    (resp : ResponseMessage) (ch1 : SecureChannel) (e : SessionErrorKind)
    (h : ch.verify_response_mac P resp = some (ch1, .error e)) :
    ch1 = ch.terminate := by
  simp only [SecureChannel.verify_response_mac] at h
  by_cases hsec : ch.security_level = SecurityLevel.Authenticated
  · rw [if_pos hsec] at h
    cases hsid : resp.session_id with
    | none =>
      rw [hsid] at h
      simp only [Option.some.injEq, Prod.mk.injEq] at h
      exact h.1.symm
    | some sid =>
      rw [hsid] at h
      simp only [] at h
      by_cases hid : ch.id ≠ sid
      · rw [if_pos hid] at h
        simp only [Option.some.injEq, Prod.mk.injEq] at h
        exact h.1.symm
      · rw [if_neg hid] at h
        cases hmac : resp.mac with
        | none =>
          rw [hmac] at h
          exact Option.noConfusion h
        | some m =>
          rw [hmac] at h
          simp only [] at h
          by_cases hm : m ≠ (P.cmac ch.rmac_key
              (ch.mac_chaining_value ++ [resp.code.to_u8] ++ be16 resp.len
                ++ [sid.to_u8] ++ resp.data)).take MAC_SIZE
          · rw [if_pos hm] at h
            simp only [Option.some.injEq, Prod.mk.injEq] at h
            exact h.1.symm
          · rw [if_neg hm] at h
            cases hinc : ch.increment_counter with
            | none =>
              rw [hinc] at h
              exact Option.noConfusion h
            | some ch2 =>
              rw [hinc] at h
              simp only [] at h
              simp only [Option.some.injEq, Prod.mk.injEq] at h
              exact absurd h.2 (by simp)
  · rw [if_neg hsec] at h
    exact Option.noConfusion h

theorem verify_response_mac_ok_state (P : CryptoPrims) (ch : SecureChannel)
    (resp : ResponseMessage) (ch1 : SecureChannel)
    (h : ch.verify_response_mac P resp = some (ch1, .ok ())) :
    ch1 = { ch with counter := ch.counter + 1 } := by
  simp only [SecureChannel.verify_response_mac] at h
  by_cases hsec : ch.security_level = SecurityLevel.Authenticated
  · rw [if_pos hsec] at h
    cases hsid : resp.session_id with
    | none =>
      rw [hsid] at h
      simp only [Option.some.injEq, Prod.mk.injEq] at h
      exact absurd h.2 (by simp)
    | some sid =>
      rw [hsid] at h
      simp only [] at h
      by_cases hid : ch.id ≠ sid
      · rw [if_pos hid] at h
        simp only [Option.some.injEq, Prod.mk.injEq] at h
        exact absurd h.2 (by simp)
      · rw [if_neg hid] at h
        cases hmac : resp.mac with
        | none =>
          rw [hmac] at h
          exact Option.noConfusion h
        | some m =>
          rw [hmac] at h
          simp only [] at h
          by_cases hm : m ≠ (P.cmac ch.rmac_key
              (ch.mac_chaining_value ++ [resp.code.to_u8] ++ be16 resp.len
                ++ [sid.to_u8] ++ resp.data)).take MAC_SIZE
          · rw [if_pos hm] at h
            simp only [Option.some.injEq, Prod.mk.injEq] at h
            exact absurd h.2 (by simp)
          · rw [if_neg hm] at h
            cases hinc : ch.increment_counter with
            | none =>
              rw [hinc] at h
              exact Option.noConfusion h
            | some ch2 =>
              rw [hinc] at h
              simp only [] at h
              simp only [Option.some.injEq, Prod.mk.injEq] at h
              unfold SecureChannel.increment_counter at hinc
              by_cases hlt : ch.counter + 1 < 2 ^ 32
              · rw [if_pos hlt] at hinc
                simp only [Option.some.injEq] at hinc
                rw [← h.1, ← hinc]
              · rw [if_neg hlt] at hinc
                exact Option.noConfusion hinc
  · rw [if_neg hsec] at h
    exact Option.noConfusion h

theorem getD_drop (l : List Nat) (n : Nat) : (l.drop n).getD 0 0 = l.getD n 0 := by
  induction n generalizing l with
  | zero => simp
  | succ k ih =>
    cases l with
    | nil => simp
    | cons a t => simp [List.drop_succ_cons, List.getD_cons_succ, ih]

theorem computeIcv_length (P : CryptoPrims) (key : List Nat) (c : Nat) :
    (computeIcv P key c).length = 16 := by
  unfold computeIcv
  apply P.encBlock_len
  simp [be32]

theorem toBlocks_count (l : List Nat) (hmod : l.length % 16 = 0) :
    (toBlocks l).length = l.length / 16 := by
  have H : ∀ n (l : List Nat), l.length ≤ n → l.length % 16 = 0 →
      (toBlocks l).length = l.length / 16 := by
    intro n
    induction n with
    | zero =>
      intro l hl _
      have hnil : l = [] := List.eq_nil_of_length_eq_zero (by omega)
      simp [hnil, toBlocks_eq]
    | succ n ih =>
      intro l hl hm
      rw [toBlocks_eq]
      by_cases h : l = []
      · simp [h]
      · have hpos : 0 < l.length := List.length_pos.mpr h
        simp only [h, if_false, List.length_cons]
        rw [ih (l.drop 16) (by simp only [List.length_drop]; omega)
          (by simp only [List.length_drop]; omega)]
        simp only [List.length_drop]
        omega
  exact H l.length l (le_refl _) hmod

theorem cbcEncrypt_length (P : CryptoPrims) (key iv m : List Nat)
    (hiv : iv.length = 16) (hm : m.length % 16 = 0) :
    (cbcEncrypt P key iv m).length = m.length := by
  unfold cbcEncrypt
  rw [fromBlocks_length _ (cbcEncBlocks_all_16 P key iv _ hiv (toBlocks_all_16 _ hm))]
  rw [cbcEncBlocks_length, toBlocks_count _ hm]
  omega

theorem serialize_length_response (r : ResponseMessage) :
    r.serialize.length = 3 + r.data.length
      + (if r.session_id.isSome then 1 else 0)
      + (match r.mac with | some mc => mc.length | none => 0) := by
  rcases r with ⟨code, sid, data, mac⟩
  cases sid <;> cases mac <;>
    (simp [ResponseMessage.serialize, ResponseMessage.len, be16]
     omega)

theorem has_rmac_success_plain (c : CommandCode) (h : c.is_plain = true) :
    has_rmac (.Success c) = false := by
  cases c <;> simp_all [has_rmac, CommandCode.is_plain]

theorem exchange_ok (P : CryptoPrims) (host card : SecureChannel)
    (code : CommandCode) (data : List Nat)
    (hp : Paired host card)
    (hcnt : host.counter < MAX_COMMANDS_PER_SESSION)
    (hplain : code.is_plain = true)
    (hresp : has_session_id (.Success code) = false)
    (hd : data.length ≤ 2044) :
    ∃ host2 card2 dec resp,
      exchange P host card code data = some (host2, card2, dec, resp)
        ∧ dec.command_type = code ∧ dec.data = data
        ∧ Paired host2 card2
        ∧ host2.counter = host.counter + 1
        ∧ card2.counter = card.counter + 1 := by
  obtain ⟨hs1, hs2, h3, h4, h5, h6, h7, h8⟩ := hp
  rcases card with ⟨cid, ccnt, csec, cctx, cek, cmk, crk, cmcv⟩
  simp only [] at hs2 h3 h4 h5 h6 h7 h8
  subst hs2 h3 h4 h5 h6 h7 h8
  have hcnt2 : host.counter < 1048576 := by
    simpa [MAX_COMMANDS_PER_SESSION] using hcnt
  have hnew : CommandMessage.new code data
      = .ok ⟨code, none, data, none⟩ := by
    unfold CommandMessage.new
    rw [if_pos (by simp only [MAX_MSG_SIZE]; omega)]
  have hserlen : (CommandMessage.serialize ⟨code, none, data, none⟩).length
      = 3 + data.length := by
    rw [serialize_length]
    simp
  set ct := cbcEncrypt P host.enc_key (computeIcv P host.enc_key host.counter)
    (pad7816 (CommandMessage.serialize ⟨code, none, data, none⟩)) with hct
  have hctlen : ct.length ≤ 2048 := by
    rw [hct, cbcEncrypt_length P _ _ _ (computeIcv_length P _ _) (pad7816_mod _)]
    rw [pad7816_length, hserlen]
    omega
  set T1 := P.cmac host.mac_key (host.mac_chaining_value
      ++ [CommandCode.SessionMessage.to_u8]
      ++ be16 (1 + ct.length + MAC_SIZE) ++ [host.id.to_u8] ++ ct) with hT1
  have hcm := command_with_mac_ok P host .SessionMessage ct hcnt
    (by simpa [MAX_MSG_SIZE] using hctlen)
  rw [← hT1] at hcm
  have henc : host.encrypt_command P ⟨code, none, data, none⟩
      = some ({ host with mac_chaining_value := T1 },
          .ok ⟨.SessionMessage, some host.id, ct, some (T1.take MAC_SIZE)⟩) := by
    unfold SecureChannel.encrypt_command
    rw [if_pos hs1]
    simp only []
    rw [hcm]
  have hwlen : (CommandMessage.len ⟨.SessionMessage, some host.id, ct,
      some (T1.take MAC_SIZE)⟩) = 1 + ct.length + MAC_SIZE := by
    simp [CommandMessage.len]
    try omega
  have hvcm : SecureChannel.verify_command_mac P
      ⟨host.id, host.counter, SecurityLevel.Authenticated, cctx,
        host.enc_key, host.mac_key, host.rmac_key, host.mac_chaining_value⟩
      ⟨.SessionMessage, some host.id, ct, some (T1.take MAC_SIZE)⟩
      = some (⟨host.id, host.counter, SecurityLevel.Authenticated, cctx,
          host.enc_key, host.mac_key, host.rmac_key, T1⟩, .ok ()) := by
    unfold SecureChannel.verify_command_mac
    simp only []
    rw [if_neg (by simp)]
    rw [hwlen]
    rw [← hT1]
    rw [if_neg (by simp)]
  have hwf : (⟨code, none, data, none⟩ : CommandMessage).wellFormed := by
    constructor
    · intro _
      exact ⟨rfl, rfl⟩
    · intro hcon
      rw [hplain] at hcon
      exact Bool.noConfusion hcon
  have hparse : CommandMessage.parse (CommandMessage.serialize ⟨code, none, data, none⟩)
      = .ok ⟨code, none, data, none⟩ := by
    apply parse_serialize_command _ hwf
    simp [CommandMessage.len]
    omega
  have hdec : SecureChannel.decrypt_command P
      ⟨host.id, host.counter, SecurityLevel.Authenticated, cctx,
        host.enc_key, host.mac_key, host.rmac_key, host.mac_chaining_value⟩
      ⟨.SessionMessage, some host.id, ct, some (T1.take MAC_SIZE)⟩
      = some (⟨host.id, host.counter, SecurityLevel.Authenticated, cctx,
          host.enc_key, host.mac_key, host.rmac_key, T1⟩,
          .ok ⟨code, some host.id, data, none⟩) := by
    unfold SecureChannel.decrypt_command
    rw [if_pos rfl]
    simp only []
    rw [hvcm]
    simp only []
    rw [hct]
    rw [cbc_roundtrip P host.enc_key _ _ (computeIcv_length P _ _)]
    simp only []
    rw [hparse]
  have hserlen2 : (ResponseMessage.serialize (ResponseMessage.success code data)).length
      = 3 + data.length := by
    rw [serialize_length_response]
    simp [ResponseMessage.success, ResponseMessage.new]
  set ct2 := cbcEncrypt P host.enc_key (computeIcv P host.enc_key host.counter)
    (pad7816 (ResponseMessage.serialize (ResponseMessage.success code data))) with hct2
  have hct2len : ct2.length ≤ 2048 := by
    rw [hct2, cbcEncrypt_length P _ _ _ (computeIcv_length P _ _) (pad7816_mod _)]
    rw [pad7816_length, hserlen2]
    omega
  set T2 := P.cmac host.rmac_key (T1 ++ [(ResponseCode.Success .SessionMessage).to_u8]
      ++ be16 (1 + ct2.length + MAC_SIZE) ++ [host.id.to_u8] ++ ct2) with hT2
  have hencr : SecureChannel.encrypt_response P
      ⟨host.id, host.counter, SecurityLevel.Authenticated, cctx,
        host.enc_key, host.mac_key, host.rmac_key, T1⟩
      (ResponseMessage.success code data)
      = some (⟨host.id, host.counter + 1, SecurityLevel.Authenticated, cctx,
          host.enc_key, host.mac_key, host.rmac_key, T1⟩,
          .ok ⟨.Success .SessionMessage, some host.id, ct2, some (T2.take MAC_SIZE)⟩) := by
    unfold SecureChannel.encrypt_response
    rw [if_pos rfl]
    simp only []
    rw [← hct2]
    unfold SecureChannel.response_with_mac
    rw [if_pos rfl]
    simp only []
    rw [← hT2]
    unfold SecureChannel.increment_counter
    rw [if_pos (show host.counter + 1 < 2 ^ 32 by omega)]
    simp only []
    unfold ResponseMessage.new_with_mac
    rfl
  have hwlen2 : (ResponseMessage.len ⟨.Success .SessionMessage, some host.id, ct2,
      some (T2.take MAC_SIZE)⟩) = 1 + ct2.length + MAC_SIZE := by
    simp [ResponseMessage.len]
    try omega
  have hwfr : (ResponseMessage.success code data).wellFormed := by
    unfold ResponseMessage.wellFormed
    rw [show (ResponseMessage.success code data).code = .Success code from rfl]
    rw [hresp, has_rmac_success_plain code hplain]
    exact ⟨rfl, rfl⟩
  have hparse2 : ResponseMessage.parse
      (ResponseMessage.serialize (ResponseMessage.success code data))
      = .ok (ResponseMessage.success code data) := by
    apply parse_serialize_response _ hwfr
    have hl : (ResponseMessage.success code data).len = data.length := by
      simp [ResponseMessage.success, ResponseMessage.new, ResponseMessage.len]
    omega
  have hvrm : SecureChannel.verify_response_mac P { host with mac_chaining_value := T1 }
      ⟨.Success .SessionMessage, some host.id, ct2, some (T2.take MAC_SIZE)⟩
      = some ({ host with mac_chaining_value := T1, counter := host.counter + 1 },
          .ok ()) := by
    unfold SecureChannel.verify_response_mac
    rw [if_pos (show ({ host with mac_chaining_value := T1 } :
      SecureChannel).security_level = SecurityLevel.Authenticated from hs1)]
    simp only []
    rw [if_neg (show ¬(({ host with mac_chaining_value := T1 } :
      SecureChannel).id ≠ host.id) by simp)]
    rw [hwlen2]
    try simp only []
    rw [← hT2]
    rw [if_neg (by simp)]
    unfold SecureChannel.increment_counter
    rw [if_pos (show ({ host with mac_chaining_value := T1 } :
      SecureChannel).counter + 1 < 2 ^ 32 by
        show host.counter + 1 < 2 ^ 32
        omega)]
    try simp only []
    try rfl
  have hdr : SecureChannel.decrypt_response P { host with mac_chaining_value := T1 }
      ⟨.Success .SessionMessage, some host.id, ct2, some (T2.take MAC_SIZE)⟩
      = some ({ host with mac_chaining_value := T1, counter := host.counter + 1 },
          .ok ⟨.Success code, some host.id, data, none⟩) := by
    unfold SecureChannel.decrypt_response
    rw [if_pos (show ({ host with mac_chaining_value := T1 } :
      SecureChannel).security_level = SecurityLevel.Authenticated from hs1)]
    simp only []
    rw [hvrm]
    simp only []
    rw [hct2]
    rw [cbc_roundtrip P host.enc_key _ _ (computeIcv_length P _ _)]
    try simp only []
    rw [hparse2]
    rfl
  refine ⟨{ host with mac_chaining_value := T1, counter := host.counter + 1 },
    ⟨host.id, host.counter + 1, SecurityLevel.Authenticated, cctx,
      host.enc_key, host.mac_key, host.rmac_key, T1⟩,
    ⟨code, some host.id, data, none⟩,
    ⟨.Success code, some host.id, data, none⟩, ?_, rfl, rfl, ?_, rfl, rfl⟩
  · unfold exchange
    rw [hnew]
    simp only []
    rw [henc]
    simp only []
    rw [hdec]
    simp only []
    rw [hencr]
    simp only []
    rw [hdr]
  · exact ⟨hs1, rfl, rfl, rfl, rfl, rfl, rfl, rfl⟩

theorem runExchanges_ok (P : CryptoPrims) :
    ∀ (cmds : List (CommandCode × List Nat)) (host card : SecureChannel),
      Paired host card →
      host.counter + cmds.length ≤ MAX_COMMANDS_PER_SESSION →
      (∀ c ∈ cmds, c.1.is_plain = true ∧ has_session_id (.Success c.1) = false
        ∧ c.2.length ≤ 2044) →
      ∃ host2 card2,
        runExchanges P host card cmds = some (host2, card2, cmds)
          ∧ Paired host2 card2
          ∧ host2.counter = host.counter + cmds.length
          ∧ card2.counter = card.counter + cmds.length := by
  intro cmds
  induction cmds with
  | nil =>
    intro host card hp _ _
    exact ⟨host, card, rfl, hp, by simp, by simp⟩
  | cons c rest ih =>
    obtain ⟨cc, cd⟩ := c
    intro host card hp hcnt hall
    obtain ⟨hpl, hrs, hdl⟩ := hall (cc, cd) (by simp)
    have hlt : host.counter < MAX_COMMANDS_PER_SESSION := by
      simp only [List.length_cons] at hcnt
      omega
    obtain ⟨h1, c1, dec, resp, hex, hdt, hdd, hp1, hcA, hcB⟩ :=
      exchange_ok P host card cc cd hp hlt hpl hrs hdl
    have hcnt1 : h1.counter + rest.length ≤ MAX_COMMANDS_PER_SESSION := by
      rw [hcA]
      simp only [List.length_cons] at hcnt
      omega
    obtain ⟨h2, c2, hrun, hp2, hcc1, hcc2⟩ :=
      ih h1 c1 hp1 hcnt1 (fun x hx => hall x (by simp [hx]))
    refine ⟨h2, c2, ?_, hp2, ?_, ?_⟩
    · unfold runExchanges
      rw [hex]
      simp only []
      rw [hrun]
      simp only []
      rw [hdt, hdd]
    · rw [hcc1, hcA]
      simp only [List.length_cons]
      omega
    · rw [hcc2, hcB]
      simp only [List.length_cons]
      omega

theorem handshake_ok (P : CryptoPrims) (id : SessionId) (ak : AuthKey)
    (hcl ccl : List Nat) :
    ∃ host card, handshake P id ak hcl ccl = some (host, card)
      ∧ Paired host card ∧ host.counter = 1 ∧ card.counter = 1 := by
  set ch0 := SecureChannel.new P id ak hcl ccl with hch0
  have hcrlen : (ch0.host_cryptogram P).length = CRYPTOGRAM_SIZE := by
    unfold SecureChannel.host_cryptogram
    rw [List.length_take]
    rw [show (kdfDerive P ch0.mac_key 1 ch0.context).length = 16 from P.cmac_len _ _]
    decide
  have hcm := command_with_mac_ok P ch0 .AuthSession (ch0.host_cryptogram P)
    (show ch0.counter < MAX_COMMANDS_PER_SESSION by
      show (0 : Nat) < MAX_COMMANDS_PER_SESSION
      decide)
    (by rw [hcrlen]; decide)
  set T0 := P.cmac ch0.mac_key (ch0.mac_chaining_value
      ++ [CommandCode.AuthSession.to_u8]
      ++ be16 (1 + (ch0.host_cryptogram P).length + MAC_SIZE)
      ++ [ch0.id.to_u8] ++ ch0.host_cryptogram P) with hT0
  have hauth : ch0.authenticate_session P
      = some ({ ch0 with mac_chaining_value := T0 },
          .ok ⟨.AuthSession, some ch0.id, ch0.host_cryptogram P,
            some (T0.take MAC_SIZE)⟩) := by
    unfold SecureChannel.authenticate_session
    rw [if_pos ⟨rfl, rfl⟩]
    rw [hcm]
  have hlen0 : (CommandMessage.len ⟨.AuthSession, some ch0.id, ch0.host_cryptogram P,
      some (T0.take MAC_SIZE)⟩) = 1 + (ch0.host_cryptogram P).length + MAC_SIZE := by
    simp [CommandMessage.len]
    try omega
  have hvcm0 : ch0.verify_command_mac P
      ⟨.AuthSession, some ch0.id, ch0.host_cryptogram P, some (T0.take MAC_SIZE)⟩
      = some ({ ch0 with mac_chaining_value := T0 }, .ok ()) := by
    unfold SecureChannel.verify_command_mac
    simp only []
    rw [if_neg (by simp)]
    rw [hlen0]
    rw [← hT0]
    rw [if_neg (by simp)]
  have hver : ch0.verify_authenticate_session P
      ⟨.AuthSession, some ch0.id, ch0.host_cryptogram P, some (T0.take MAC_SIZE)⟩
      = some ({ ch0 with mac_chaining_value := T0, security_level := SecurityLevel.Authenticated, counter := 1 },
          .ok (ResponseMessage.success .AuthSession [])) := by
    unfold SecureChannel.verify_authenticate_session
    rw [if_pos ⟨rfl, rfl⟩]
    rw [if_neg (show ¬((⟨.AuthSession, some ch0.id, ch0.host_cryptogram P,
      some (T0.take MAC_SIZE)⟩ : CommandMessage).data.length ≠ CRYPTOGRAM_SIZE) by
        simp [hcrlen])]
    rw [if_neg (by simp)]
    rw [hvcm0]
  have hfin : SecureChannel.finish_authenticate_session
      { ch0 with mac_chaining_value := T0 } (ResponseMessage.success .AuthSession [])
      = ({ ch0 with mac_chaining_value := T0, security_level := SecurityLevel.Authenticated, counter := 1 }, .ok ()) := by
    unfold SecureChannel.finish_authenticate_session
    rw [if_neg (by simp [ResponseMessage.success, ResponseMessage.new])]
  refine ⟨{ ch0 with mac_chaining_value := T0, security_level := SecurityLevel.Authenticated, counter := 1 },
    { ch0 with mac_chaining_value := T0, security_level := SecurityLevel.Authenticated, counter := 1 }, ?_,
    ⟨rfl, rfl, rfl, rfl, rfl, rfl, rfl, rfl⟩, rfl, rfl⟩
  unfold handshake
  simp only []
  rw [← hch0]
  rw [hauth]
  simp only []
  rw [hver]
  simp only []
  rw [hfin]

/-! Claim theorems. -/

set_option maxRecDepth 4096 in
/-- C10: HsmErrorKind.from_u8 is total on all 256 byte values, bytes
outside the documented range 0x01 to 0x11 map to the Unknown variant
carrying the byte, and to_u8 inverts from_u8 on every byte value. -/
theorem C10_hsm_error_kind_total_roundtrip :
    ∀ b : Nat, b < 256 →
      HsmErrorKind.to_u8 (HsmErrorKind.from_u8 b) = b
        ∧ (¬(1 ≤ b ∧ b ≤ 0x11) → HsmErrorKind.from_u8 b = .Unknown b) := by
  decide

/-- Witness for C10 at the byte 0x42. -/
theorem C10_hsm_error_kind_total_roundtrip_witness :
    HsmErrorKind.to_u8 (HsmErrorKind.from_u8 0x42) = 0x42
      ∧ (¬(1 ≤ 0x42 ∧ 0x42 ≤ 0x11) → HsmErrorKind.from_u8 0x42 = .Unknown 0x42) :=
  C10_hsm_error_kind_total_roundtrip 0x42 (by decide)

/-- C9 fails as stated: VerifyFailed and MismatchError are distinct session
error kinds yet both convert to ClientErrorKind.ProtocolError, so the
conversion does not keep distinct channel error kinds distinguishable. -/
theorem C9_counterexample :
    sessionToClientKind .VerifyFailed = sessionToClientKind .MismatchError
      ∧ SessionErrorKind.VerifyFailed ≠ SessionErrorKind.MismatchError := by
  decide

/-- C9 amended: the conversion from session to client error kinds preserves
AuthFail, ClosedSessionError, CreateFailed, DeviceError and ResponseError
verbatim, but collapses ProtocolError, CommandLimitExceeded, MismatchError
and VerifyFailed into the single client kind ProtocolError: two session
kinds convert equal exactly when they are equal or both lie in that
collapsed set. -/
theorem C9_conversion_collapse :
    ∀ k k' : SessionErrorKind,
      sessionToClientKind k = sessionToClientKind k'
        ↔ (k = k'
            ∨ (collapsesToProtocolError k = true ∧ collapsesToProtocolError k' = true)) := by
  intro k k'
  cases k <;> cases k' <;>
    simp [sessionToClientKind, collapsesToProtocolError]

/-- C8 fails as stated: new_with_mac accepts a 2045-byte payload, yet the
resulting message serializes to a 2057-byte frame, exceeding 2048. -/
theorem C8_counterexample :
    CommandMessage.new_with_mac .Echo 0 (List.replicate 2045 0) (List.replicate 16 0)
        = .ok { command_type := .Echo, session_id := some 0,
                data := List.replicate 2045 0, mac := some (List.replicate 8 0) }
      ∧ 2048 <
        (CommandMessage.serialize
          { command_type := .Echo, session_id := some 0,
            data := List.replicate 2045 0, mac := some (List.replicate 8 0) }).length := by
  constructor
  · unfold CommandMessage.new_with_mac
    rw [if_pos (by rw [List.length_replicate]; norm_num [MAX_MSG_SIZE])]
    rw [List.take_replicate]
    norm_num [MAC_SIZE]
  · simp only [CommandMessage.serialize, CommandMessage.len, be16, Option.isSome_some,
      if_true, List.length_cons, List.length_append, List.length_replicate, MAC_SIZE]
    omega

/-- C8 amended: the constructors accept exactly command data of at most
MAX_MSG_SIZE (2048) bytes: they bound the data field, not the whole frame,
so an accepted message without a MAC serializes to at most 2051 bytes and
an accepted message with a MAC to at most 2060 bytes. -/
theorem C8_constructors_bound_data :
    (∀ ct data, (∃ msg, CommandMessage.new ct data = .ok msg)
        ↔ data.length ≤ MAX_MSG_SIZE)
      ∧ (∀ ct sid data tag,
          (∃ msg, CommandMessage.new_with_mac ct sid data tag = .ok msg)
            ↔ data.length ≤ MAX_MSG_SIZE)
      ∧ (∀ ct data msg, CommandMessage.new ct data = .ok msg →
          msg.serialize.length = 3 + data.length ∧ msg.serialize.length ≤ 2051)
      ∧ (∀ ct sid data tag msg, CommandMessage.new_with_mac ct sid data tag = .ok msg →
          msg.serialize.length = 4 + data.length + min MAC_SIZE tag.length
            ∧ msg.serialize.length ≤ 2060) := by
  refine ⟨?_, ?_, ?_, ?_⟩
  · intro ct data
    unfold CommandMessage.new
    constructor
    · rintro ⟨msg, hmsg⟩
      by_contra hgt
      rw [if_neg hgt] at hmsg
      exact Except.noConfusion hmsg
    · intro hle
      exact ⟨_, by rw [if_pos hle]⟩
  · intro ct sid data tag
    unfold CommandMessage.new_with_mac
    constructor
    · rintro ⟨msg, hmsg⟩
      by_contra hgt
      rw [if_neg hgt] at hmsg
      exact Except.noConfusion hmsg
    · intro hle
      exact ⟨_, by rw [if_pos hle]⟩
  · intro ct data msg hmsg
    unfold CommandMessage.new at hmsg
    by_cases hle : data.length ≤ MAX_MSG_SIZE
    · rw [if_pos hle] at hmsg
      cases hmsg
      rw [serialize_length]
      simp only [Option.isSome_none, Bool.false_eq_true, if_false]
      simp only [MAX_MSG_SIZE] at hle
      omega
    · rw [if_neg hle] at hmsg
      exact Except.noConfusion hmsg
  · intro ct sid data tag msg hmsg
    unfold CommandMessage.new_with_mac at hmsg
    by_cases hle : data.length ≤ MAX_MSG_SIZE
    · rw [if_pos hle] at hmsg
      cases hmsg
      rw [serialize_length]
      simp only [Option.isSome_some, if_true, List.length_take]
      simp only [MAX_MSG_SIZE] at hle
      simp only [MAC_SIZE]
      omega
    · rw [if_neg hle] at hmsg
      exact Except.noConfusion hmsg

/-- Witness for C8 amended: a small MACed message is accepted and its
serialized length matches the formula. -/
theorem C8_constructors_bound_data_witness :
    (CommandMessage.serialize
        { command_type := .Echo, session_id := some 0,
          data := [1, 2, 3], mac := some (List.take MAC_SIZE (List.replicate 16 5)) }).length
        = 4 + ([1, 2, 3] : List Nat).length + min MAC_SIZE (List.replicate 16 5).length
      ∧ (CommandMessage.serialize
          { command_type := .Echo, session_id := some 0,
            data := [1, 2, 3], mac := some (List.take MAC_SIZE (List.replicate 16 5)) }).length
          ≤ 2060 :=
  C8_constructors_bound_data.2.2.2 .Echo 0 [1, 2, 3] (List.replicate 16 5) _ rfl

/-- C6: parsing inverts serialization: every well-formed command or
response message whose payload is at most 2032 bytes parses back from its
serialization with the same code, session ID, data and MAC fields. -/
theorem C6_parse_serialize_roundtrip :
    (∀ m : CommandMessage, m.wellFormed → m.data.length ≤ 2032 →
        CommandMessage.parse m.serialize = .ok m)
      ∧ (∀ r : ResponseMessage, r.wellFormed → r.data.length ≤ 2032 →
          ResponseMessage.parse r.serialize = .ok r) := by
  constructor
  · intro m hwf hd
    apply parse_serialize_command m hwf
    have hb : m.len ≤ m.data.length + 9 := by
      simp only [CommandMessage.len, MAC_SIZE]
      split <;> split <;> omega
    omega
  · intro r hwf hd
    apply parse_serialize_response r hwf
    have hb : r.len ≤ r.data.length + 9 := by
      simp only [ResponseMessage.len, MAC_SIZE]
      split <;> split <;> omega
    omega

/-- Witness for C6 on a concrete MACed command and a concrete plain
response. -/
theorem C6_parse_serialize_roundtrip_witness :
    CommandMessage.parse
        (CommandMessage.serialize
          { command_type := .SessionMessage, session_id := some 3,
            data := [9, 8], mac := some (List.replicate 8 7) })
        = .ok { command_type := .SessionMessage, session_id := some 3,
                data := [9, 8], mac := some (List.replicate 8 7) }
      ∧ ResponseMessage.parse
          (ResponseMessage.serialize
            { code := .Success .Echo, session_id := none, data := [1], mac := none })
          = .ok { code := .Success .Echo, session_id := none, data := [1], mac := none } :=
  ⟨C6_parse_serialize_roundtrip.1 _
      (by
        constructor
        · intro h
          simp [CommandCode.is_plain] at h
        · intro h
          simp [MAC_SIZE])
      (by decide),
    C6_parse_serialize_roundtrip.2 _
      (by
        constructor
        · simp [has_session_id]
        · simp [has_rmac])
      (by decide)⟩

/-- C2: with the counter below the limit and the data within the codec
bound, command_with_mac computes the 16-byte tag T as the CMAC under S-MAC
of chaining value, code byte, big-endian 16-bit encoding of
1 + data length + 8, session ID byte and data, stores the untruncated T as
the new chaining value, and returns the message carrying the first 8 bytes
of T as its MAC. -/
theorem C2_command_with_mac_formula :
    ∀ (P : CryptoPrims) (ch : SecureChannel) (ct : CommandCode) (data : List Nat),
      ch.counter < MAX_COMMANDS_PER_SESSION → data.length ≤ MAX_MSG_SIZE →
      (P.cmac ch.mac_key (ch.mac_chaining_value ++ [ct.to_u8]
          ++ be16 (1 + data.length + MAC_SIZE) ++ [ch.id.to_u8] ++ data)).length = 16
        ∧ ch.command_with_mac P ct data
            = ({ ch with mac_chaining_value := (P.cmac ch.mac_key
                  (ch.mac_chaining_value ++ [ct.to_u8]
                    ++ be16 (1 + data.length + MAC_SIZE) ++ [ch.id.to_u8] ++ data)) },
                .ok { command_type := ct, session_id := some ch.id, data := data,
                      mac := some ((P.cmac ch.mac_key (ch.mac_chaining_value ++ [ct.to_u8]
                        ++ be16 (1 + data.length + MAC_SIZE) ++ [ch.id.to_u8] ++ data)).take
                          MAC_SIZE) }) := by
  intro P ch ct data hc hd
  exact ⟨P.cmac_len _ _, command_with_mac_ok P ch ct data hc hd⟩

/-- Witness for C2 on a concrete channel, code and data under idPrims. -/
theorem C2_command_with_mac_formula_witness :
    (idPrims.cmac chA.mac_key (chA.mac_chaining_value ++ [CommandCode.Echo.to_u8]
        ++ be16 (1 + ([1, 2, 3] : List Nat).length + MAC_SIZE) ++ [chA.id.to_u8]
        ++ [1, 2, 3])).length = 16
      ∧ chA.command_with_mac idPrims .Echo [1, 2, 3]
          = ({ chA with mac_chaining_value := (idPrims.cmac chA.mac_key
                (chA.mac_chaining_value ++ [CommandCode.Echo.to_u8]
                  ++ be16 (1 + ([1, 2, 3] : List Nat).length + MAC_SIZE) ++ [chA.id.to_u8]
                  ++ [1, 2, 3])) },
              .ok { command_type := .Echo, session_id := some chA.id, data := [1, 2, 3],
                    mac := some ((idPrims.cmac chA.mac_key (chA.mac_chaining_value
                      ++ [CommandCode.Echo.to_u8]
                      ++ be16 (1 + ([1, 2, 3] : List Nat).length + MAC_SIZE) ++ [chA.id.to_u8]
                      ++ [1, 2, 3])).take MAC_SIZE) }) :=
  C2_command_with_mac_formula idPrims chA .Echo [1, 2, 3] (by decide) (by decide)

/-- C5: a command issued at or past the limit of 2^20 terminates the
channel and fails with CommandLimitExceeded; below the limit the error
CommandLimitExceeded is never produced; at counter 2^20 - 1 one more
command still succeeds. -/
theorem C5_command_limit :
    ∀ (P : CryptoPrims) (ch : SecureChannel) (ct : CommandCode) (data : List Nat),
      (ch.counter ≥ MAX_COMMANDS_PER_SESSION →
        ch.command_with_mac P ct data = (ch.terminate, .error .CommandLimitExceeded)
          ∧ (ch.command_with_mac P ct data).1.security_level = SecurityLevel.Terminated)
      ∧ (ch.counter < MAX_COMMANDS_PER_SESSION →
          ∀ e, (ch.command_with_mac P ct data).2 = .error e → e ≠ .CommandLimitExceeded)
      ∧ (ch.counter = MAX_COMMANDS_PER_SESSION - 1 → data.length ≤ MAX_MSG_SIZE →
          (ch.command_with_mac P ct data).2
            = .ok { command_type := ct, session_id := some ch.id, data := data,
                    mac := some ((P.cmac ch.mac_key (ch.mac_chaining_value ++ [ct.to_u8]
                      ++ be16 (1 + data.length + MAC_SIZE) ++ [ch.id.to_u8] ++ data)).take
                        MAC_SIZE) }) := by
  intro P ch ct data
  refine ⟨?_, ?_, ?_⟩
  · intro hge
    unfold SecureChannel.command_with_mac
    rw [if_pos hge]
    exact ⟨rfl, by simp [SecureChannel.terminate]⟩
  · intro hlt e he
    unfold SecureChannel.command_with_mac at he
    rw [if_neg (by omega)] at he
    by_cases hd : data.length ≤ MAX_MSG_SIZE
    · simp [CommandMessage.new_with_mac, hd] at he
    · simp [CommandMessage.new_with_mac, hd] at he
      subst he
      decide
  · intro hc hd
    have hlt : ch.counter < MAX_COMMANDS_PER_SESSION := by
      simp only [MAX_COMMANDS_PER_SESSION] at hc ⊢
      omega
    rw [command_with_mac_ok P ch ct data hlt hd]

/-- Witness for C5: at the boundary counter value the command succeeds, and
one step past it the channel terminates with CommandLimitExceeded. -/
theorem C5_command_limit_witness :
    (({ chA with counter := MAX_COMMANDS_PER_SESSION - 1 } :
        SecureChannel).command_with_mac idPrims .Echo [1]).2
        = .ok { command_type := .Echo, session_id := some chA.id, data := [1],
                mac := some ((idPrims.cmac chA.mac_key (chA.mac_chaining_value
                  ++ [CommandCode.Echo.to_u8] ++ be16 (1 + ([1] : List Nat).length + MAC_SIZE)
                  ++ [chA.id.to_u8] ++ [1])).take MAC_SIZE) }
      ∧ ({ chA with counter := MAX_COMMANDS_PER_SESSION } :
          SecureChannel).command_with_mac idPrims .Echo [1]
          = (({ chA with counter := MAX_COMMANDS_PER_SESSION } : SecureChannel).terminate,
              .error .CommandLimitExceeded) :=
  ⟨(C5_command_limit idPrims { chA with counter := MAX_COMMANDS_PER_SESSION - 1 }
        .Echo [1]).2.2 (by decide) (by decide),
    ((C5_command_limit idPrims { chA with counter := MAX_COMMANDS_PER_SESSION }
        .Echo [1]).1 (by decide)).1⟩

/-- C3 fails as stated: a response that fails MAC verification terminates
the channel and wipes the three session keys, but the mac_chaining_value is
not wiped: on this concrete input it stays at its prior nonzero bytes. -/
theorem C3_counterexample :
    SecureChannel.verify_response_mac idPrims chA respBad
        = some (chA.terminate, .error .VerifyFailed)
      ∧ chA.terminate.enc_key = List.replicate 16 0
      ∧ chA.terminate.mac_key = List.replicate 16 0
      ∧ chA.terminate.rmac_key = List.replicate 16 0
      ∧ chA.terminate.security_level = SecurityLevel.Terminated
      ∧ chA.terminate.mac_chaining_value ≠ List.replicate 16 0 := by
  refine ⟨rfl, rfl, rfl, rfl, rfl, by decide⟩

/-- C3 amended: whenever verify_response_mac returns an error the channel
has entered the Terminated state with all three session keys wiped to
all-zero bytes; the mac_chaining_value is not wiped and keeps its prior
value, as does every explicit terminate transition. -/
theorem C3_terminated_wipes_keys_not_chaining :
    ∀ ch : SecureChannel,
      (ch.terminate.security_level = SecurityLevel.Terminated
        ∧ ch.terminate.enc_key = List.replicate KEY_SIZE 0
        ∧ ch.terminate.mac_key = List.replicate KEY_SIZE 0
        ∧ ch.terminate.rmac_key = List.replicate KEY_SIZE 0
        ∧ ch.terminate.mac_chaining_value = ch.mac_chaining_value)
      ∧ (∀ (P : CryptoPrims) (resp : ResponseMessage) (ch1 : SecureChannel)
            (e : SessionErrorKind),
          ch.verify_response_mac P resp = some (ch1, .error e) →
            ch1.security_level = SecurityLevel.Terminated
              ∧ ch1.enc_key = List.replicate KEY_SIZE 0
              ∧ ch1.mac_key = List.replicate KEY_SIZE 0
              ∧ ch1.rmac_key = List.replicate KEY_SIZE 0
              ∧ ch1.mac_chaining_value = ch.mac_chaining_value) := by
  intro ch
  constructor
  · exact ⟨rfl, rfl, rfl, rfl, rfl⟩
  · intro P resp ch1 e h
    have h1 := verify_response_mac_error_state P ch resp ch1 e h
    subst h1
    exact ⟨rfl, rfl, rfl, rfl, rfl⟩

/-- Witness for C3 amended at the concrete failing verification. -/
theorem C3_terminated_wipes_keys_not_chaining_witness :
    chA.terminate.security_level = SecurityLevel.Terminated
      ∧ chA.terminate.enc_key = List.replicate KEY_SIZE 0
      ∧ chA.terminate.mac_key = List.replicate KEY_SIZE 0
      ∧ chA.terminate.rmac_key = List.replicate KEY_SIZE 0
      ∧ chA.terminate.mac_chaining_value = chA.mac_chaining_value :=
  ((C3_terminated_wipes_keys_not_chaining chA).2 idPrims respBad chA.terminate
      .VerifyFailed rfl)

/-- C4: for an authenticated channel, computing a command MAC and
encrypting a command leave the counter unchanged, and every successful
response MAC verification increments the counter by exactly one while
leaving the chaining value, the three session keys, the session ID and the
security level untouched. -/
theorem C4_counter_advances_on_verified_response :
    ∀ (P : CryptoPrims) (ch : SecureChannel),
      ch.security_level = SecurityLevel.Authenticated →
      (∀ ct data, ((ch.command_with_mac P ct data).1).counter = ch.counter)
        ∧ (∀ cmd st r, ch.encrypt_command P cmd = some (st, r) → st.counter = ch.counter)
        ∧ (∀ resp ch1, ch.verify_response_mac P resp = some (ch1, .ok ()) →
            ch1.counter = ch.counter + 1
              ∧ ch1.mac_chaining_value = ch.mac_chaining_value
              ∧ ch1.enc_key = ch.enc_key
              ∧ ch1.mac_key = ch.mac_key
              ∧ ch1.rmac_key = ch.rmac_key
              ∧ ch1.id = ch.id
              ∧ ch1.security_level = ch.security_level) := by
  intro P ch hauth
  have hcwm : ∀ ct data, ((ch.command_with_mac P ct data).1).counter = ch.counter := by
    intro ct data
    unfold SecureChannel.command_with_mac
    split
    · rfl
    · rfl
  refine ⟨hcwm, ?_, ?_⟩
  · intro cmd st r h
    unfold SecureChannel.encrypt_command at h
    rw [if_pos hauth] at h
    simp only [Option.some.injEq] at h
    have h1 : (SecureChannel.command_with_mac P ch .SessionMessage
        (cbcEncrypt P ch.enc_key (computeIcv P ch.enc_key ch.counter)
          (pad7816 cmd.serialize))).1 = st := by
      rw [h]
    rw [← h1]
    exact hcwm _ _
  · intro resp ch1 h
    have h1 := verify_response_mac_ok_state P ch resp ch1 h
    subst h1
    exact ⟨rfl, rfl, rfl, rfl, rfl, rfl, rfl⟩

/-- Witness for C4 at a concrete authenticated channel and verified
response. -/
theorem C4_counter_advances_on_verified_response_witness :
    (({ chA with counter := 6 } : SecureChannel).counter = chA.counter + 1
        ∧ ({ chA with counter := 6 } : SecureChannel).mac_chaining_value
            = chA.mac_chaining_value
        ∧ ({ chA with counter := 6 } : SecureChannel).enc_key = chA.enc_key
        ∧ ({ chA with counter := 6 } : SecureChannel).mac_key = chA.mac_key
        ∧ ({ chA with counter := 6 } : SecureChannel).rmac_key = chA.rmac_key
        ∧ ({ chA with counter := 6 } : SecureChannel).id = chA.id
        ∧ ({ chA with counter := 6 } : SecureChannel).security_level
            = chA.security_level) :=
  (C4_counter_advances_on_verified_response idPrims chA rfl).2.2 respA
    { chA with counter := 6 } rfl

/-- C7: both parsers reject with a ProtocolError (and never succeed on)
every frame shorter than 3 bytes, every frame whose big-endian length field
plus 3 differs from the frame length, every frame whose leading code byte
is unknown, every frame carrying a session ID byte of 16 or more where the
code expects one, and every frame whose code expects a MAC but which keeps
fewer than 8 bytes after the session ID. -/
theorem C7_parse_rejects_malformed :
    (∀ bytes : List Nat,
      (bytes.length < 3
        ∨ CommandCode.from_u8 (bytes.getD 0 0) = none
        ∨ read16 (bytes.getD 1 0) (bytes.getD 2 0) + 3 ≠ bytes.length
        ∨ ((∃ c, CommandCode.from_u8 (bytes.getD 0 0) = some c ∧ c.is_plain = false)
            ∧ 4 ≤ bytes.length ∧ 16 ≤ bytes.getD 3 0)
        ∨ ((∃ c, CommandCode.from_u8 (bytes.getD 0 0) = some c ∧ c.is_plain = false)
            ∧ bytes.length < 12)) →
      CommandMessage.parse bytes = .error .ProtocolError)
    ∧ (∀ bytes : List Nat,
      (bytes.length < 3
        ∨ ResponseCode.from_u8 (bytes.getD 0 0) = none
        ∨ read16 (bytes.getD 1 0) (bytes.getD 2 0) + 3 ≠ bytes.length
        ∨ ((∃ c, ResponseCode.from_u8 (bytes.getD 0 0) = some c ∧ has_session_id c = true)
            ∧ 4 ≤ bytes.length ∧ 16 ≤ bytes.getD 3 0)
        ∨ ((∃ c, ResponseCode.from_u8 (bytes.getD 0 0) = some c ∧ has_rmac c = true)
            ∧ bytes.length < 12)) →
      ResponseMessage.parse bytes = .error .ProtocolError) := by
  constructor
  · intro bytes h
    unfold CommandMessage.parse
    by_cases h3 : bytes.length < 3
    · rw [if_pos h3]
    · rw [if_neg h3]
      cases hc : CommandCode.from_u8 (bytes.getD 0 0) with
      | none => simp only []
      | some ct =>
        simp only []
        by_cases hb : read16 (bytes.getD 1 0) (bytes.getD 2 0) + 3 ≠ bytes.length
        · rw [if_pos hb]
        · rw [if_neg hb]
          have hD : ((∃ c, CommandCode.from_u8 (bytes.getD 0 0) = some c
                  ∧ c.is_plain = false) ∧ 4 ≤ bytes.length ∧ 16 ≤ bytes.getD 3 0)
              ∨ ((∃ c, CommandCode.from_u8 (bytes.getD 0 0) = some c
                  ∧ c.is_plain = false) ∧ bytes.length < 12) := by
            rcases h with h | h | h | h | h
            · exact absurd h h3
            · rw [hc] at h
              exact Option.noConfusion h
            · exact absurd h hb
            · exact Or.inl h
            · exact Or.inr h
          have hnp : ct.is_plain = false := by
            rcases hD with ⟨⟨c, hc2, hcp⟩, _⟩ | ⟨⟨c, hc2, hcp⟩, _⟩ <;>
              (rw [hc] at hc2
               simp only [Option.some.injEq] at hc2
               subst hc2
               exact hcp)
          have hct : ct = CommandCode.AuthSession ∨ ct = CommandCode.SessionMessage := by
            cases ct
            · exact absurd hnp (by decide)
            · exact absurd hnp (by decide)
            · exact Or.inl rfl
            · exact Or.inr rfl
            · exact absurd hnp (by decide)
          have hmain : ∀ hrest2 : List Nat, hrest2 = bytes.drop 3 →
              (match hrest2 with
                | [] => (Except.error SessionErrorKind.ProtocolError :
                    Except SessionErrorKind CommandMessage)
                | sidByte :: rest2 =>
                  match SessionId.new sidByte with
                  | .error e => .error e
                  | .ok sid =>
                    if rest2.length < MAC_SIZE then .error SessionErrorKind.ProtocolError
                    else
                      .ok { command_type := ct, session_id := some sid,
                            data := rest2.take (rest2.length - MAC_SIZE),
                            mac := some (rest2.drop (rest2.length - MAC_SIZE)) })
                = .error SessionErrorKind.ProtocolError := by
            intro rest hrest
            cases rest with
            | nil => simp only []
            | cons sb rest2 =>
              simp only []
              have hsb : bytes.getD 3 0 = sb := by
                rw [← getD_drop, ← hrest]
                simp
              have hlen4 : bytes.length = 4 + rest2.length := by
                have hlen := congrArg List.length hrest
                simp only [List.length_cons, List.length_drop] at hlen
                omega
              rcases hD with ⟨_, _, hsid⟩ | ⟨_, h12⟩
              · rw [hsb] at hsid
                unfold SessionId.new
                rw [dif_neg (by omega)]
              · by_cases hs16 : sb < 16
                · unfold SessionId.new
                  rw [dif_pos hs16]
                  simp only []
                  rw [if_pos (by simp only [MAC_SIZE]; omega)]
                · unfold SessionId.new
                  rw [dif_neg hs16]
          rcases hct with rfl | rfl
          · exact hmain (bytes.drop 3) rfl
          · exact hmain (bytes.drop 3) rfl
  · intro bytes h
    unfold ResponseMessage.parse
    by_cases h3 : bytes.length < 3
    · rw [if_pos h3]
    · rw [if_neg h3]
      cases hc : ResponseCode.from_u8 (bytes.getD 0 0) with
      | none => simp only []
      | some code =>
        simp only []
        by_cases hb : read16 (bytes.getD 1 0) (bytes.getD 2 0) + 3 ≠ bytes.length
        · rw [if_pos hb]
        · rw [if_neg hb]
          have hD : ((∃ c, ResponseCode.from_u8 (bytes.getD 0 0) = some c
                  ∧ has_session_id c = true) ∧ 4 ≤ bytes.length ∧ 16 ≤ bytes.getD 3 0)
              ∨ ((∃ c, ResponseCode.from_u8 (bytes.getD 0 0) = some c
                  ∧ has_rmac c = true) ∧ bytes.length < 12) := by
            rcases h with h | h | h | h | h
            · exact absurd h h3
            · rw [hc] at h
              exact Option.noConfusion h
            · exact absurd h hb
            · exact Or.inl h
            · exact Or.inr h
          have hsid : has_session_id code = true := by
            rcases hD with ⟨⟨c, hc2, hcp⟩, _⟩ | ⟨⟨c, hc2, hcp⟩, _⟩ <;>
              (rw [hc] at hc2
               simp only [Option.some.injEq] at hc2
               subst hc2)
            · exact hcp
            · exact has_rmac_imp_sid _ hcp
          rw [if_pos hsid]
          cases hrest : bytes.drop 3 with
          | nil => simp only []
          | cons sb rest2 =>
            simp only []
            have hsb : bytes.getD 3 0 = sb := by
              rw [← getD_drop, hrest]
              simp
            have hlen4 : bytes.length = 4 + rest2.length := by
              have hlen := congrArg List.length hrest
              simp only [List.length_cons, List.length_drop] at hlen
              omega
            rcases hD with ⟨_, _, hsidge⟩ | ⟨⟨c, hc2, hcp⟩, h12⟩
            · rw [hsb] at hsidge
              unfold SessionId.new
              rw [dif_neg (by omega)]
            · have hcode : has_rmac code = true := by
                rw [hc] at hc2
                simp only [Option.some.injEq] at hc2
                subst hc2
                exact hcp
              by_cases hs16 : sb < 16
              · unfold SessionId.new
                rw [dif_pos hs16]
                simp only []
                rw [if_pos hcode]
                rw [if_pos (by simp only [MAC_SIZE]; omega)]
              · unfold SessionId.new
                rw [dif_neg hs16]

/-- Witness for C7 on a concrete short command frame and a concrete
response frame with an unknown code byte. -/
theorem C7_parse_rejects_malformed_witness :
    CommandMessage.parse [] = .error .ProtocolError
      ∧ ResponseMessage.parse [0x42, 0, 0] = .error .ProtocolError :=
  ⟨C7_parse_rejects_malformed.1 [] (Or.inl (by decide)),
    C7_parse_rejects_malformed.2 [0x42, 0, 0] (Or.inr (Or.inl (by decide)))⟩

/-- C1 fails as stated: in a concrete paired run under idPrims with one
echoed command, the command is recovered unchanged but both counters end at
2, not at 1 + 1 - 1 = 1: the counter advances once per exchange starting
from 1, so after n exchanges it equals 1 + n. -/
theorem C1_counterexample :
    ((handshake idPrims 0 akEx zeros8 zeros8).bind (fun p =>
        (runExchanges idPrims p.1 p.2 [(.Echo, [1, 2, 3])]).map (fun t =>
          (t.1.counter, t.2.1.counter, t.2.2))))
        = some (2, 2, [(.Echo, [1, 2, 3])])
      ∧ (2 : Nat) ≠ 1 + 1 - 1 := by
  constructor
  · decide
  · decide

/-- C1 amended: for channels paired by a successful handshake and any
sequence of at most 2^20 - 1 commands whose codes are plain for the codec
on both the command and the success-response side (all codes except
AuthSession, SessionMessage and CreateSession) and whose data is at most
2044 bytes, every command is recovered by the device unchanged, both
counters end at 1 + n, and the two mac_chaining_value fields are
byte-identical. -/
theorem C1_handshake_exchange_roundtrip :
    ∀ (P : CryptoPrims) (id : SessionId) (ak : AuthKey) (hcl ccl : List Nat)
      (host card : SecureChannel) (cmds : List (CommandCode × List Nat)),
      handshake P id ak hcl ccl = some (host, card) →
      cmds.length ≤ MAX_COMMANDS_PER_SESSION - 1 →
      (∀ c ∈ cmds, c.1.is_plain = true ∧ has_session_id (.Success c.1) = false
        ∧ c.2.length ≤ 2044) →
      ∃ host2 card2,
        runExchanges P host card cmds = some (host2, card2, cmds)
          ∧ host2.counter = 1 + cmds.length
          ∧ card2.counter = 1 + cmds.length
          ∧ host2.mac_chaining_value = card2.mac_chaining_value := by
  intro P id ak hcl ccl host card cmds hh hn hall
  obtain ⟨host0, card0, hh0, hp0, hB1, hB2⟩ := handshake_ok P id ak hcl ccl
  rw [hh0] at hh
  simp only [Option.some.injEq, Prod.mk.injEq] at hh
  obtain ⟨e1, e2⟩ := hh
  subst e1 e2
  have hbound : host0.counter + cmds.length ≤ MAX_COMMANDS_PER_SESSION := by
    rw [hB1]
    simp only [MAX_COMMANDS_PER_SESSION] at hn ⊢
    omega
  obtain ⟨host2, card2, hrun, hp2, hc1, hc2⟩ :=
    runExchanges_ok P cmds host0 card0 hp0 hbound hall
  refine ⟨host2, card2, hrun, ?_, ?_, hp2.2.2.2.2.2.2.2⟩
  · rw [hc1, hB1]
  · rw [hc2, hB2]

/-- Witness for C1 amended at a concrete handshake and a single echoed
command under idPrims. -/
theorem C1_handshake_exchange_roundtrip_witness :
    ∃ host2 card2,
      runExchanges idPrims hostEx cardEx [(.Echo, [1, 2, 3])]
          = some (host2, card2, [(.Echo, [1, 2, 3])])
        ∧ host2.counter = 2
        ∧ card2.counter = 2
        ∧ host2.mac_chaining_value = card2.mac_chaining_value :=
  C1_handshake_exchange_roundtrip idPrims 0 akEx zeros8 zeros8 hostEx cardEx
    [(.Echo, [1, 2, 3])] rfl (by decide) (by decide)

end Yubihsm
